import Mathlib

/-!
# kubetest2-aks deployer: embedding and properties

A shallow embedding of `kubetest2-aks/deployer` (`deployer.go`, `up.go`, `down.go`).

Modelling conventions.

* Go `string` and `[]byte` values are sequences of runes (`Str`); the conversions
  `string(b)` and `[]byte(s)` are the identity.
* A Go `error` is a `GoError`: either an opaque message or a `%w` wrapper that keeps the
  wrapped error.  `nil` is `none`.
* A Go function returning `(T, error)` is an `Except GoError T`; a function that may abort with
  a run-time panic returns an `Outcome`.
* The regular expressions of `up.go` are compiled from their source text into a list of
  nodes and run by a backtracking matcher that tries alternatives in the priority order of
  Go's `regexp` package (leftmost match, greedy `+`).
* The `az` tool, the file system and the process environment are fields of `Host`; the
  theorems quantify over all hosts.  The decoder is a field of `Host` as well, so that the
  verbs are described for every behaviour of it; `jsonUnmarshal` is the decoder of
  `encoding/json` for the type `armDeployment`, and `filepathJoin` is `filepath.Join`.
* `klog` calls have no effect on the results and are left out.
-/

namespace Kubetest2Aks

set_option maxRecDepth 100000

/-! ## Strings, errors, outcomes -/

/-- Go strings and byte slices, as sequences of runes. -/
abbrev Str := List Char

/-- Go `error` values: `errorString` is an error without a cause (as made by `errors.New`, or
by `fmt.Errorf` without `%w`, or by a library); `wrapError` is what `fmt.Errorf` builds for a
format with `%w`. -/
inductive GoError where
  | errorString (s : Str)
  | wrapError (msg : Str) (err : GoError)
  deriving DecidableEq, Repr

/-- The method `Error()`. -/
def GoError.Error : GoError → Str
  | .errorString s => s
  | .wrapError msg _ => msg

/-- The method `Unwrap()`. -/
def GoError.Unwrap : GoError → Option GoError
  | .errorString _ => none
  | .wrapError _ err => some err

/-- The call `fmt.Errorf(pre + "%w", err)`, where `pre` is the formatted text before the verb
`%w`: the message is `pre` followed by `err.Error()`, and the result unwraps to `err`. -/
def wrapf (pre : Str) (err : GoError) : GoError :=
  .wrapError (pre ++ err.Error) err

/-- Result of a call that either returns or aborts with a run-time panic. -/
inductive Outcome (α : Type) where
  | ret (a : α)
  | panic (msg : Str)
  deriving DecidableEq, Repr

deriving instance DecidableEq for Except

/-! ## Regular expressions (the fragment used by `up.go`) -/

/-- Nodes of a compiled pattern. -/
inductive Node where
  /-- a literal rune -/
  | lit (c : Char)
  /-- a literal rune under the flag `(?i)` -/
  | litFold (c : Char)
  /-- `.`: any rune except line feed -/
  | dot
  /-- `(.+)`: a capturing group of one or more runes other than line feed, greedy -/
  | capDotPlus
  /-- `$`: end of text (no multi-line flag) -/
  | endText
  deriving DecidableEq, Repr

/-- Translation of the pattern text after an optional leading flag group. -/
def compileFrom : Bool → List Char → List Node
  | _, [] => []
  | fold, '(' :: '.' :: '+' :: ')' :: rest => Node.capDotPlus :: compileFrom fold rest
  | fold, '\\' :: c :: rest =>
    (if fold then Node.litFold c else Node.lit c) :: compileFrom fold rest
  | fold, '.' :: rest => Node.dot :: compileFrom fold rest
  | fold, '$' :: rest => Node.endText :: compileFrom fold rest
  | fold, c :: rest => (if fold then Node.litFold c else Node.lit c) :: compileFrom fold rest

/-- The call `regexp.MustCompile(expr)` for the patterns of this package: an optional leading
`(?i)`, literal runes, `\c`, `.`, `(.+)` and `$`. -/
def MustCompile (expr : String) : List Node :=
  match expr.toList with
  | '(' :: '?' :: 'i' :: ')' :: rest => compileFrom true rest
  | cs => compileFrom false cs

/-- The runes a literal `c` matches under `(?i)`: the orbit of `c` under `unicode.SimpleFold`.
Stated for ASCII `c`, which is all the patterns contain: the two cases of a letter, plus
U+017F (long s) for `s` and U+212A (Kelvin sign) for `k`. -/
def foldOrbit (c : Char) : List Char :=
  [c, c.toUpper, c.toLower]
    ++ (if c.toLower = 's' then [Char.ofNat 0x17f] else [])
    ++ (if c.toLower = 'k' then [Char.ofNat 0x212a] else [])

/-- Whether a single-rune node accepts a rune. -/
def Node.accepts : Node → Char → Bool
  | .lit c, x => decide (x = c)
  | .litFold c, x => decide (x ∈ foldOrbit c)
  | .dot, x => decide (x ≠ '\n')
  | .capDotPlus, _ => false
  | .endText, _ => false

/-- Number of leading runes other than line feed: the most that `.+` can take. -/
def dotRun : List Char → Nat
  | [] => 0
  | c :: cs => if c = '\n' then 0 else dotRun cs + 1

/-- Greedy group `(.+)` followed by the continuation `k`: try `n` runes, then `n - 1`, down to
one.  A result is the number of runes consumed and the captures, leftmost first. -/
def capLoop (k : List Char → Option (Nat × List Str)) (s : List Char) :
    Nat → Option (Nat × List Str)
  | 0 => none
  | n + 1 =>
    match k (s.drop (n + 1)) with
    | some r => some (n + 1 + r.1, s.take (n + 1) :: r.2)
    | none => capLoop k s n

/-- A node consuming one rune accepted by `ok`, followed by the continuation `k`. -/
def stepRune (ok : Char → Bool) (k : List Char → Option (Nat × List Str)) :
    List Char → Option (Nat × List Str)
  | [] => none
  | x :: s => if ok x then (k s).map (fun r => (r.1 + 1, r.2)) else none

/-- Match a pattern at the start of `s`, in priority order. -/
def matchAt : List Node → List Char → Option (Nat × List Str)
  | [] => fun _ => some (0, [])
  | Node.lit c :: p => stepRune (Node.accepts (.lit c)) (matchAt p)
  | Node.litFold c :: p => stepRune (Node.accepts (.litFold c)) (matchAt p)
  | Node.dot :: p => stepRune (Node.accepts .dot) (matchAt p)
  | Node.capDotPlus :: p => fun s => capLoop (matchAt p) s (dotRun s)
  | Node.endText :: p => fun s => if s = [] then matchAt p s else none

/-- Leftmost match: the matched text followed by the captures. -/
def search (re : List Node) : List Char → Option (List Str)
  | [] => (matchAt re []).map (fun r => [] :: r.2)
  | c :: t =>
    match matchAt re (c :: t) with
    | some r => some ((c :: t).take r.1 :: r.2)
    | none => search re t

/-- The method `(*Regexp).FindStringSubmatch`: `nil` (the empty list) without a match, else
the matched text followed by one entry per group. -/
def FindStringSubmatch (re : List Node) (s : Str) : List Str :=
  (search re s).getD []

/-- The call `bytes.Split(s, []byte{sep})`. -/
def bytesSplit (sep : Char) : List Char → List Str
  | [] => [[]]
  | c :: cs =>
    if c = sep then [] :: bytesSplit sep cs
    else
      match bytesSplit sep cs with
      | l :: ls => (c :: l) :: ls
      | [] => [[c]]

/-! ## Output parsers (`up.go`) -/

structure armDeploymentOutputResources where
  ID : Str
  ResourceGroup : Str
  deriving DecidableEq, Repr

structure armDeploymentProperties where
  OutputResources : List armDeploymentOutputResources
  deriving DecidableEq, Repr

structure armDeployment where
  Properties : armDeploymentProperties
  deriving DecidableEq, Repr

/-- The loop of `parseWhatIf` over the remaining lines, with the running `scope`. -/
def parseWhatIfLoop : List Str → Str → Except GoError Str
  | [], _ => .error (.errorString "resourceID not found".toList)
  | line :: lines, scope =>
    let scopeRegex := MustCompile "Scope: (.+)"
    let scopeMatch := FindStringSubmatch scopeRegex line
    if scopeMatch.length = 2 then
      parseWhatIfLoop lines (scopeMatch.getD 1 [])
    else
      let re := MustCompile "\\+ Microsoft.ContainerService/managedClusters/(.+)"
      let m := FindStringSubmatch re line
      if m.length = 2 then
        .ok (scope ++ "/Microsoft.ContainerService/managedClusters/".toList ++ m.getD 1 [])
      else parseWhatIfLoop lines scope

def parseWhatIf (output : Str) : Except GoError Str :=
  parseWhatIfLoop (bytesSplit '\n' output) []

/-- The function `parseResourceID`; `unmarshal` is `json.Unmarshal` into an `armDeployment`.
Indexing an empty slice is a run-time panic. -/
def parseResourceID (unmarshal : Str → Except GoError armDeployment) (output : Str) :
    Outcome (Except GoError Str) :=
  match unmarshal output with
  | .error err => .ret (.error err)
  | .ok armOutput =>
    match armOutput.Properties.OutputResources with
    | [] => .panic "runtime error: index out of range [0] with length 0".toList
    | r :: _ => .ret (.ok r.ID)

def parseClusterName (resourceID : Str) : Except GoError Str :=
  let re := MustCompile
    "(?i)/subscriptions/(.+)/resourcegroups/(.+)/providers/Microsoft.ContainerService/managedClusters/(.+)$"
  let m := FindStringSubmatch re resourceID
  if m.length ≠ 4 then .error (.errorString "invalid cluster resourceID".toList)
  else .ok (m.getD 3 [])

/-! ## The decoder `json.Unmarshal` into an `armDeployment`

The input is read as one JSON value (syntax errors are reported first, as by the scanner of
`encoding/json`), and the value is then stored into the struct by the JSON names of the
fields (`properties`, `outputResources`, `id`, `resourceGroup`): a key selects a field when it
equals the name up to letter case, members are stored in the order they are written, unknown
members are skipped, `null` leaves a field as it is, and a value of the wrong kind is a type
error, returned after decoding.  Input that is not valid UTF-8 is outside the model. -/

/-- A JSON value; a number keeps its literal text. -/
inductive JValue where
  | null
  | bool (b : Bool)
  | num (lit : Str)
  | str (s : Str)
  | arr (xs : List JValue)
  | obj (kvs : List (Str × JValue))

/-- The syntax error of an input that ends too early. -/
def jsonEOF : GoError := .errorString "unexpected end of JSON input".toList

/-- The syntax error of an input with a character that cannot stand where it is (Go names the
character and the place in the message). -/
def jsonInvalid : GoError := .errorString "invalid character in JSON input".toList

/-- The syntax error of an input nested deeper than 10000 levels. -/
def jsonDepth : GoError := .errorString "invalid character: exceeded max depth".toList

/-- The error of a JSON value that does not fit the Go type it is decoded into (Go names the
value and the field in the message). -/
def jsonTypeError : GoError := .errorString "json: cannot unmarshal value into Go value".toList

/-- White space between JSON tokens. -/
def isSpace (c : Char) : Bool :=
  c = ' ' || c = '\t' || c = '\r' || c = '\n'

/-- A decimal digit. -/
def isDigit (c : Char) : Bool :=
  '0'.toNat ≤ c.toNat && c.toNat ≤ '9'.toNat

/-- The input after leading white space. -/
def skipWs : Str → Str
  | [] => []
  | c :: cs => if isSpace c then skipWs cs else c :: cs

/-- The value of a hexadecimal digit. -/
def hexVal (c : Char) : Option Nat :=
  if '0'.toNat ≤ c.toNat ∧ c.toNat ≤ '9'.toNat then some (c.toNat - '0'.toNat)
  else if 'a'.toNat ≤ c.toNat ∧ c.toNat ≤ 'f'.toNat then some (c.toNat - 'a'.toNat + 10)
  else if 'A'.toNat ≤ c.toNat ∧ c.toNat ≤ 'F'.toNat then some (c.toNat - 'A'.toNat + 10)
  else none

/-- A piece of a string literal: a rune (written as itself or by a two-character escape) or a
`\uXXXX` escape with its value. -/
inductive StrItem where
  | rune (c : Char)
  | esc (u : Nat)
  deriving DecidableEq, Repr

/-- The rune of a two-character escape. -/
def simpleEscape (c : Char) : Option Char :=
  if c = '"' then some '"'
  else if c = '\\' then some '\\'
  else if c = '/' then some '/'
  else if c = 'b' then some (Char.ofNat 8)
  else if c = 'f' then some (Char.ofNat 12)
  else if c = 'n' then some '\n'
  else if c = 'r' then some '\r'
  else if c = 't' then some '\t'
  else none

/-- The error of fewer than four characters after `\u`: the first character that is not a
hexadecimal digit is invalid, otherwise the input ends too early. -/
def shortHexError (s : Str) : GoError :=
  if s.all (fun c => (hexVal c).isSome) then jsonEOF else jsonInvalid

/-- Scan a string literal after its opening quote, up to and including the closing quote. -/
def scanItems : Str → Except GoError (List StrItem × Str)
  | [] => .error jsonEOF
  | c :: r =>
    if c = '"' then .ok ([], r)
    else if c = '\\' then
      match r with
      | [] => .error jsonEOF
      | e :: r1 =>
        if e = 'u' then
          match r1 with
          | a :: b :: c1 :: d :: r2 =>
            match hexVal a, hexVal b, hexVal c1, hexVal d with
            | some va, some vb, some vc, some vd =>
              match scanItems r2 with
              | .error err => .error err
              | .ok (items, rest) =>
                .ok (StrItem.esc (((va * 16 + vb) * 16 + vc) * 16 + vd) :: items, rest)
            | _, _, _, _ => .error jsonInvalid
          | short => .error (shortHexError short)
        else
          match simpleEscape e with
          | none => .error jsonInvalid
          | some x =>
            match scanItems r1 with
            | .error err => .error err
            | .ok (items, rest) => .ok (StrItem.rune x :: items, rest)
    else if c.toNat < 0x20 then .error jsonInvalid
    else
      match scanItems r with
      | .error err => .error err
      | .ok (items, rest) => .ok (StrItem.rune c :: items, rest)

/-- The rune of a single `\uXXXX` escape: a surrogate half becomes U+FFFD. -/
def decodeUnit (u : Nat) : Char :=
  if 0xD800 ≤ u ∧ u ≤ 0xDFFF then Char.ofNat 0xFFFD else Char.ofNat u

/-- The text of a string literal: a high surrogate escape directly followed by a low surrogate
escape is one rune. -/
def combine : List StrItem → Str
  | [] => []
  | .rune c :: rest => c :: combine rest
  | .esc hi :: .esc lo :: rest =>
    if 0xD800 ≤ hi ∧ hi < 0xDC00 ∧ 0xDC00 ≤ lo ∧ lo < 0xE000 then
      Char.ofNat (0x10000 + (hi - 0xD800) * 0x400 + (lo - 0xDC00)) :: combine rest
    else decodeUnit hi :: combine (.esc lo :: rest)
  | .esc u :: rest => decodeUnit u :: combine rest

/-- A string literal after its opening quote: its text and the input after the closing
quote. -/
def scanString (s : Str) : Except GoError (Str × Str) :=
  match scanItems s with
  | .error err => .error err
  | .ok (items, rest) => .ok (combine items, rest)

/-- The rest of a literal name (`true`, `false`, `null`) after its first letter. -/
def matchLiteral : Str → Str → Except GoError Str
  | [], s => .ok s
  | _ :: _, [] => .error jsonEOF
  | l :: ls, c :: s => if c = l then matchLiteral ls s else .error jsonInvalid

/-- One or more digits. -/
def scanDigits (s : Str) : Except GoError (Str × Str) :=
  match s.span isDigit with
  | ([], []) => .error jsonEOF
  | ([], _ :: _) => .error jsonInvalid
  | (ds, rest) => .ok (ds, rest)

/-- Scan a number: `-? (0 | [1-9][0-9]*) (. [0-9]+)? ([eE] [+-]? [0-9]+)?`. -/
def scanNumber (s : Str) : Except GoError (Str × Str) :=
  let signed : Str × Str :=
    match s with
    | '-' :: r => (['-'], r)
    | _ => ([], s)
  let whole : Except GoError (Str × Str) :=
    match signed.2 with
    | [] => .error jsonEOF
    | c :: r =>
      if c = '0' then .ok (signed.1 ++ ['0'], r)
      else if isDigit c then .ok (signed.1 ++ c :: (r.span isDigit).1, (r.span isDigit).2)
      else .error jsonInvalid
  match whole with
  | .error err => .error err
  | .ok (lit1, r1) =>
    let frac : Except GoError (Str × Str) :=
      match r1 with
      | '.' :: r =>
        match scanDigits r with
        | .error err => .error err
        | .ok (ds, rest) => .ok (lit1 ++ '.' :: ds, rest)
      | _ => .ok (lit1, r1)
    match frac with
    | .error err => .error err
    | .ok (lit2, r2) =>
      match r2 with
      | [] => .ok (lit2, r2)
      | e :: r =>
        if e = 'e' ∨ e = 'E' then
          let sign : Str × Str :=
            match r with
            | '+' :: r3 => (['+'], r3)
            | '-' :: r3 => (['-'], r3)
            | _ => ([], r)
          match scanDigits sign.2 with
          | .error err => .error err
          | .ok (ds, rest) => .ok (lit2 ++ e :: sign.1 ++ ds, rest)
        else .ok (lit2, r2)

/-- The elements of an array after the first value has been found to start, up to and
including the closing bracket; `pv` parses one value. -/
def parseElems (pv : Str → Except GoError (JValue × Str)) :
    Nat → Str → Except GoError (List JValue × Str)
  | 0, _ => .error jsonEOF
  | n + 1, s =>
    match pv s with
    | .error err => .error err
    | .ok (v, s1) =>
      match skipWs s1 with
      | [] => .error jsonEOF
      | c :: s2 =>
        if c = ',' then
          match parseElems pv n s2 with
          | .error err => .error err
          | .ok (vs, s3) => .ok (v :: vs, s3)
        else if c = ']' then .ok ([v], s2)
        else .error jsonInvalid

/-- An array after its opening bracket. -/
def parseArray (pv : Str → Except GoError (JValue × Str)) (r : Str) :
    Except GoError (JValue × Str) :=
  match skipWs r with
  | [] => .error jsonEOF
  | c :: r1 =>
    if c = ']' then .ok (.arr [], r1)
    else
      match parseElems pv (c :: r1).length (c :: r1) with
      | .error err => .error err
      | .ok (vs, rest) => .ok (.arr vs, rest)

/-- The members of an object from the start of a key, up to and including the closing
brace; `pv` parses one value. -/
def parseMembers (pv : Str → Except GoError (JValue × Str)) :
    Nat → Str → Except GoError (List (Str × JValue) × Str)
  | 0, _ => .error jsonEOF
  | n + 1, s =>
    match skipWs s with
    | [] => .error jsonEOF
    | q :: s1 =>
      if q ≠ '"' then .error jsonInvalid
      else
        match scanString s1 with
        | .error err => .error err
        | .ok (key, s2) =>
          match skipWs s2 with
          | [] => .error jsonEOF
          | c :: s3 =>
            if c ≠ ':' then .error jsonInvalid
            else
              match pv s3 with
              | .error err => .error err
              | .ok (v, s4) =>
                match skipWs s4 with
                | [] => .error jsonEOF
                | c1 :: s5 =>
                  if c1 = ',' then
                    match parseMembers pv n s5 with
                    | .error err => .error err
                    | .ok (kvs, s6) => .ok ((key, v) :: kvs, s6)
                  else if c1 = '}' then .ok ([(key, v)], s5)
                  else .error jsonInvalid

/-- An object after its opening brace. -/
def parseObject (pv : Str → Except GoError (JValue × Str)) (r : Str) :
    Except GoError (JValue × Str) :=
  match skipWs r with
  | [] => .error jsonEOF
  | c :: r1 =>
    if c = '}' then .ok (.obj [], r1)
    else
      match parseMembers pv (c :: r1).length (c :: r1) with
      | .error err => .error err
      | .ok (kvs, rest) => .ok (.obj kvs, rest)

/-- One JSON value after optional white space; `depth` is the number of further levels of
nesting allowed. -/
def parseValue : Nat → Str → Except GoError (JValue × Str)
  | depth, s =>
    match skipWs s with
    | [] => .error jsonEOF
    | c :: r =>
      if c = '"' then
        match scanString r with
        | .error err => .error err
        | .ok (str, rest) => .ok (.str str, rest)
      else if c = '{' then
        match depth with
        | 0 => .error jsonDepth
        | d + 1 => parseObject (parseValue d) r
      else if c = '[' then
        match depth with
        | 0 => .error jsonDepth
        | d + 1 => parseArray (parseValue d) r
      else if c = 't' then
        match matchLiteral "rue".toList r with
        | .error err => .error err
        | .ok rest => .ok (.bool true, rest)
      else if c = 'f' then
        match matchLiteral "alse".toList r with
        | .error err => .error err
        | .ok rest => .ok (.bool false, rest)
      else if c = 'n' then
        match matchLiteral "ull".toList r with
        | .error err => .error err
        | .ok rest => .ok (.null, rest)
      else if c = '-' ∨ isDigit c then
        match scanNumber (c :: r) with
        | .error err => .error err
        | .ok (lit, rest) => .ok (.num lit, rest)
      else .error jsonInvalid

/-- The syntax pass of `json.Unmarshal`: one value, white space around it, nothing else. -/
def jsonParse (data : Str) : Except GoError JValue :=
  match parseValue 10000 data with
  | .error err => .error err
  | .ok (v, rest) =>
    match skipWs rest with
    | [] => .ok v
    | _ :: _ => .error jsonInvalid

/-- Whether an object key selects the field with JSON name `name`: equal up to the case of
ASCII letters, where U+017F also counts as `s` and U+212A as `k`. -/
def keyMatches (name : String) (key : Str) : Bool :=
  decide (List.Forall₂ (fun c x => x ∈ foldOrbit c) name.toList key)

/-- Decode a value into a `string` field holding `cur`: `null` leaves it, anything but a
string is a type error (the flag). -/
def bindString (cur : Str) (v : JValue) : Str × Bool :=
  match v with
  | .str s => (s, false)
  | .null => (cur, false)
  | _ => (cur, true)

/-- Decode a value into an `armDeploymentOutputResources` holding `cur`: the members of an
object are stored in order into the fields `id` and `resourceGroup`, other members are
skipped. -/
def bindResource (cur : armDeploymentOutputResources) (v : JValue) :
    armDeploymentOutputResources × Bool :=
  match v with
  | .obj kvs =>
    kvs.foldl (fun acc kv =>
      if keyMatches "id" kv.1 then
        ({ acc.1 with ID := (bindString acc.1.ID kv.2).1 },
          acc.2 || (bindString acc.1.ID kv.2).2)
      else if keyMatches "resourceGroup" kv.1 then
        ({ acc.1 with ResourceGroup := (bindString acc.1.ResourceGroup kv.2).1 },
          acc.2 || (bindString acc.1.ResourceGroup kv.2).2)
      else acc) (cur, false)
  | .null => (cur, false)
  | _ => (cur, true)

/-- A slice during decoding: its elements, and what its backing array holds after them. -/
structure SliceState where
  elems : List armDeploymentOutputResources
  spare : List armDeploymentOutputResources

/-- Decode the elements of an array one by one into the slots of the backing array, each into
what its slot holds (the zero value where nothing was stored before). -/
def bindSlots : List JValue → List armDeploymentOutputResources →
    List armDeploymentOutputResources × Bool
  | [], _ => ([], false)
  | x :: xs, slots =>
    let r := bindResource (slots.headD { ID := [], ResourceGroup := [] }) x
    let rs := bindSlots xs slots.tail
    (r.1 :: rs.1, r.2 || rs.2)

/-- Decode a value into the slice `OutputResources`: an empty array gives a fresh empty slice,
`null` the nil slice, a non-empty array is decoded slot by slot and sets the length. -/
def bindSlice (cur : SliceState) (v : JValue) : SliceState × Bool :=
  match v with
  | .arr [] => ({ elems := [], spare := [] }, false)
  | .arr xs =>
    ({ elems := (bindSlots xs (cur.elems ++ cur.spare)).1,
       spare := (cur.elems ++ cur.spare).drop xs.length },
      (bindSlots xs (cur.elems ++ cur.spare)).2)
  | .null => ({ elems := [], spare := [] }, false)
  | _ => (cur, true)

/-- Decode a value into an `armDeploymentProperties`. -/
def bindProperties (cur : SliceState) (v : JValue) : SliceState × Bool :=
  match v with
  | .obj kvs =>
    kvs.foldl (fun acc kv =>
      if keyMatches "outputResources" kv.1 then
        ((bindSlice acc.1 kv.2).1, acc.2 || (bindSlice acc.1 kv.2).2)
      else acc) (cur, false)
  | .null => (cur, false)
  | _ => (cur, true)

/-- Decode a value into a zero `armDeployment`. -/
def bindDeployment (v : JValue) : SliceState × Bool :=
  match v with
  | .obj kvs =>
    kvs.foldl (fun acc kv =>
      if keyMatches "properties" kv.1 then
        ((bindProperties acc.1 kv.2).1, acc.2 || (bindProperties acc.1 kv.2).2)
      else acc) ({ elems := [], spare := [] }, false)
  | .null => ({ elems := [], spare := [] }, false)
  | _ => ({ elems := [], spare := [] }, true)

/-- The call `json.Unmarshal(data, &armOutput)` on a zero `armDeployment`: a syntax error
if `data` is not one JSON value; otherwise the value is stored by the JSON names of the
fields, and the first type error, if any, is returned after decoding. -/
def jsonUnmarshal (data : Str) : Except GoError armDeployment :=
  match jsonParse data with
  | .error err => .error err
  | .ok v =>
    if (bindDeployment v).2 then .error jsonTypeError
    else .ok { Properties := { OutputResources := (bindDeployment v).1.elems } }

/-! ## The function `filepath.Join` (Unix) -/

/-- One step of `filepath.Clean` over the elements of a path, with the elements kept so far:
empty elements and `.` are dropped, `..` removes the element before it, is dropped at the
root, and is kept at the start of a relative path. -/
def cleanStep (rooted : Bool) (stack : List Str) (c : Str) : List Str :=
  if c = [] ∨ c = ['.'] then stack
  else if c = ['.', '.'] then
    match stack.getLast? with
    | some top => if top = ['.', '.'] then stack ++ [c] else stack.dropLast
    | none => if rooted then stack else stack ++ [c]
  else stack ++ [c]

/-- The elements of the cleaned path. -/
def cleanElems (path : Str) : List Str :=
  (bytesSplit '/' path).foldl (cleanStep (path.head? = some '/')) []

/-- Elements joined by `/`. -/
def joinSlash : List Str → Str
  | [] => []
  | [e] => e
  | e :: es => e ++ '/' :: joinSlash es

/-- The function `filepath.Clean` (Unix). -/
def filepathClean (path : Str) : Str :=
  match cleanElems path with
  | [] => if path.head? = some '/' then ['/'] else ['.']
  | es => (if path.head? = some '/' then ['/'] else []) ++ joinSlash es

/-- The call `filepath.Join(dir, name)` (Unix): the first non-empty argument and what follows
it are joined by `/` and cleaned. -/
def filepathJoin (dir name : Str) : Str :=
  if dir ≠ [] then filepathClean (dir ++ '/' :: name)
  else if name ≠ [] then filepathClean name
  else []

/-! ## The host: external tool, libraries, file system, environment -/

/-- What `cmd.Run()` yields for one external command: the captured standard output and
standard error, and the error of `Run` (`none` on exit status zero). -/
structure ExecResult where
  stdout : Str
  stderr : Str
  err : Option GoError

/-- The observable state around the driver. -/
structure World where
  /-- argument vectors of the external commands run so far, oldest first -/
  calls : List (List Str)
  /-- directories created by `ioutil.TempDir`, oldest first -/
  dirs : List Str
  /-- content of the regular files written so far, by path -/
  files : Str → Option Str
  /-- the process environment -/
  env : Str → Option Str

/-- Behaviour of everything outside the package.  Each field may depend on the current world,
which includes the history of commands, so a host can answer the same request differently at
different times. -/
structure Host where
  /-- running an argument vector to completion -/
  run : World → List Str → ExecResult
  /-- the call `json.Unmarshal(data, &armOutput)` on a fresh `armDeployment`; the decoder of
  `encoding/json` is `Kubetest2Aks.jsonUnmarshal` -/
  jsonUnmarshal : Str → Except GoError armDeployment
  /-- the call `ioutil.TempDir(dir, pattern)`: the new directory, or an error -/
  tempDir : World → Str → Str → Except GoError Str
  /-- the error, if any, of `ioutil.WriteFile(name, data, 0644)` -/
  writeFile : World → Str → Str → Option GoError
  /-- the error, if any, of `os.Setenv(key, value)` -/
  setenv : World → Str → Str → Option GoError

/-- The world after running one more external command. -/
def World.record (w : World) (cmd : List Str) : World :=
  { w with calls := w.calls ++ [cmd] }

/-- The world after a successful `ioutil.TempDir`. -/
def World.mkdir (w : World) (dir : Str) : World :=
  { w with dirs := w.dirs ++ [dir] }

/-- The world after a successful `ioutil.WriteFile`. -/
def World.write (w : World) (name data : Str) : World :=
  { w with files := fun p => if p = name then some data else w.files p }

/-- The world after a successful `os.Setenv`. -/
def World.setenv (w : World) (key value : Str) : World :=
  { w with env := fun k => if k = key then some value else w.env k }

/-! ## Process runner and cloud operations -/

def runWithErrorOutput (h : Host) (cmd : List Str) (w : World) : Except GoError Str × World :=
  let r := h.run w cmd
  match r.err with
  | some err => (.error (wrapf (r.stderr ++ " : ".toList) err), w.record cmd)
  | none => (.ok r.stdout, w.record cmd)

/-- Argument vector of the deployment submission in `ensureDeployment`. -/
def createCmd (group template : Str) : List Str :=
  ["az".toList, "deployment".toList, "group".toList, "create".toList,
    "-g".toList, group, "-f".toList, template]

/-- Argument vector of the dry run in `IsUp`. -/
def whatIfCmd (group template : Str) : List Str :=
  ["az".toList, "deployment".toList, "group".toList, "create".toList, "-w".toList,
    "-r".toList, "ResourceIdOnly".toList, "-g".toList, group, "-f".toList, template]

/-- Argument vector of the existence check in `IsUp`. -/
def showCmd (resourceID : Str) : List Str :=
  ["az".toList, "resource".toList, "show".toList, "--ids".toList, resourceID]

/-- Argument vector of `deleteResource`. -/
def deleteCmd (resourceID : Str) : List Str :=
  ["az".toList, "resource".toList, "delete".toList, "--ids".toList, resourceID]

/-- Argument vector of the credentials fetch in `ensureKubeconfig`. -/
def credentialsCmd (group clusterName : Str) : List Str :=
  ["az".toList, "aks".toList, "get-credentials".toList, "-g".toList, group,
    "-n".toList, clusterName, "-f".toList, "-".toList]

def ensureDeployment (h : Host) (group template : Str) (w : World) :
    Outcome (Except GoError Str) × World :=
  match runWithErrorOutput h (createCmd group template) w with
  | (.error err, w1) =>
    (.ret (.error (wrapf ("Failed to create deployment [".toList ++ template ++ "]: ".toList)
      err)), w1)
  | (.ok out, w1) =>
    match parseResourceID h.jsonUnmarshal out with
    | .panic msg => (.panic msg, w1)
    | .ret (.error err) => (.ret (.error err), w1)
    | .ret (.ok resourceID) => (.ret (.ok resourceID), w1)

/-- The pattern `ensureKubeconfig` passes to `ioutil.TempDir`. -/
def tempDirPattern : Str := "kubetest2-aks".toList

/-- The environment variable `ensureKubeconfig` sets. -/
def kubeconfigEnv : Str := "KUBECONFIG".toList

/-- Name of the credential file inside the temporary directory:
`fmt.Sprintf("kubeconfig-%s-%s", group, clusterName)`. -/
def kubeconfigName (group clusterName : Str) : Str :=
  "kubeconfig-".toList ++ group ++ "-".toList ++ clusterName

def ensureKubeconfig (h : Host) (group clusterName : Str) (w : World) :
    Option GoError × World :=
  match runWithErrorOutput h (credentialsCmd group clusterName) w with
  | (.error err, w1) => (some (wrapf "Failed to get kubeconfig: ".toList err), w1)
  | (.ok kubeconfig, w1) =>
    match h.tempDir w1 [] tempDirPattern with
    | .error err => (some err, w1)
    | .ok tmpdir =>
      let w2 := w1.mkdir tmpdir
      let filename := filepathJoin tmpdir (kubeconfigName group clusterName)
      match h.writeFile w2 filename kubeconfig with
      | some err => (some err, w2)
      | none =>
        let w3 := w2.write filename kubeconfig
        match h.setenv w3 kubeconfigEnv filename with
        | some err => (some err, w3)
        | none => (none, w3.setenv kubeconfigEnv filename)

def deleteResource (h : Host) (resourceID : Str) (w : World) : Option GoError × World :=
  match runWithErrorOutput h (deleteCmd resourceID) w with
  | (.error err, w1) => (some err, w1)
  | (.ok _, w1) => (none, w1)

/-! ## The driver (`deployer.go`, `up.go`, `down.go`) -/

/-- Modelled from the spec: the type `options.ClusterOptions` (package
`kubetest2-aks/deployer/options`), of which the driver reads the resource group and the
template path. -/
structure ClusterOptions where
  ResourceGroup : Str
  Template : Str
  deriving DecidableEq, Repr

structure aksDeployer where
  ClusterOptions : ClusterOptions
  clusterResourceID : Str
  deriving DecidableEq, Repr

def newDeployer : aksDeployer :=
  { ClusterOptions := { ResourceGroup := [], Template := [] }, clusterResourceID := [] }

def DumpClusterLogs (ad : aksDeployer) : Outcome (Option GoError) × aksDeployer :=
  (.panic "not implemented".toList, ad)

def Build (ad : aksDeployer) : Outcome (Option GoError) × aksDeployer :=
  (.panic "not implemented".toList, ad)

def Up (h : Host) (ad : aksDeployer) (w : World) :
    Outcome (Option GoError) × aksDeployer × World :=
  match ensureDeployment h ad.ClusterOptions.ResourceGroup ad.ClusterOptions.Template w with
  | (.panic msg, w1) => (.panic msg, ad, w1)
  | (.ret (.error err), w1) => (.ret (some err), ad, w1)
  | (.ret (.ok resourceID), w1) =>
    let ad1 := { ad with clusterResourceID := resourceID }
    match parseClusterName resourceID with
    | .error err => (.ret (some err), ad1, w1)
    | .ok clusterName =>
      match ensureKubeconfig h ad.ClusterOptions.ResourceGroup clusterName w1 with
      | (some err, w2) => (.ret (some err), ad1, w2)
      | (none, w2) => (.ret none, ad1, w2)

def IsUp (h : Host) (ad : aksDeployer) (w : World) :
    (Bool × Option GoError) × aksDeployer × World :=
  match runWithErrorOutput h
      (whatIfCmd ad.ClusterOptions.ResourceGroup ad.ClusterOptions.Template) w with
  | (.error err, w1) =>
    ((false, some (wrapf
      ("Failed to query deployment [".toList ++ ad.ClusterOptions.Template ++ "]: ".toList)
      err)), ad, w1)
  | (.ok out, w1) =>
    match parseWhatIf out with
    | .error _ => ((false, none), ad, w1)
    | .ok resourceID =>
      match runWithErrorOutput h (showCmd resourceID) w1 with
      | (.error _, w2) => ((false, none), ad, w2)
      | (.ok _, w2) => ((true, none), { ad with clusterResourceID := resourceID }, w2)

def Down (h : Host) (ad : aksDeployer) (w : World) : Option GoError × aksDeployer × World :=
  match IsUp h ad w with
  | ((_, some err), ad1, w1) => (some (wrapf "failed to get cluster state: ".toList err), ad1, w1)
  | ((false, none), ad1, w1) => (none, ad1, w1)
  | ((true, none), ad1, w1) =>
    match deleteResource h ad1.clusterResourceID w1 with
    | (some err, w2) => (some (wrapf "failed to delete resource: ".toList err), ad1, w2)
    | (none, w2) => (none, ad1, w2)

/-- The leading arguments of every `deleteResource` invocation. -/
def deletePrefix : List Str :=
  ["az".toList, "resource".toList, "delete".toList, "--ids".toList]

/-- The `deleteResource` invocations among the commands run between two worlds, in order:
each entry is the argument vector `az resource delete --ids <id>`. -/
def deletesSince (before after : World) : List (List Str) :=
  (after.calls.drop before.calls.length).filter (fun cmd => cmd.take 4 = deletePrefix)

/-! ## Vocabulary of the statements -/

/-- What `parseWhatIf` gets from the scope pattern on one line. -/
def scopeMatch (line : Str) : List Str :=
  FindStringSubmatch (MustCompile "Scope: (.+)") line

/-- What `parseWhatIf` gets from the managed-cluster pattern on one line. -/
def clusterMatch (line : Str) : List Str :=
  FindStringSubmatch (MustCompile "\\+ Microsoft.ContainerService/managedClusters/(.+)") line

/-- Nodes that consume exactly one rune. -/
def Node.single : Node → Bool
  | .lit _ => true
  | .litFold _ => true
  | .dot => true
  | .capDotPlus => false
  | .endText => false

/-- Nodes of a literal text under `(?i)`, in which `.` stands for any rune. -/
def foldNodes (kw : String) : List Node :=
  kw.toList.map (fun c => if c = '.' then Node.dot else Node.litFold c)

/-- The text `text` is the keyword text `kw` in some upper/lower casing. -/
def CaseVariant (kw : String) (text : Str) : Prop :=
  List.Forall₂ (fun k x => x = k.toLower ∨ x = k.toUpper) kw.toList text

/-- The keyword text between the resource group and the cluster name. -/
def providerText : String := "/providers/Microsoft.ContainerService/managedClusters/"

instance (kw : String) (text : Str) : Decidable (CaseVariant kw text) := by
  unfold CaseVariant
  infer_instance

/-! ### JSON documents -/

/-- The hexadecimal digit of a value below 16. -/
def hexDigit (n : Nat) : Char :=
  "0123456789abcdef".toList.getD n '0'

/-- A rune inside a string literal: the quote and the backslash are escaped, a control
character is written `\u00XX`, any other rune stands for itself. -/
def quoteChar (c : Char) : Str :=
  if c = '"' then ['\\', '"']
  else if c = '\\' then ['\\', '\\']
  else if c.toNat < 0x20 then
    ['\\', 'u', '0', '0', hexDigit (c.toNat / 16), hexDigit (c.toNat % 16)]
  else [c]

/-- The runes of a string literal after the opening quote. -/
def quoteBody : Str → Str
  | [] => ['"']
  | c :: cs => quoteChar c ++ quoteBody cs

/-- An object key with its colon. -/
def encodeKey (name : String) : Str :=
  '"' :: (quoteBody name.toList ++ [':'])

/-- A string value. -/
def encodeString (s : Str) : Str :=
  '"' :: quoteBody s

/-- The encoding of one output resource. -/
def encodeResource (r : armDeploymentOutputResources) : Str :=
  '\x7b' :: (encodeKey "id" ++ (encodeString r.ID ++ ',' ::
    (encodeKey "resourceGroup" ++ (encodeString r.ResourceGroup ++ ['\x7d']))))

/-- The encodings of the output resources, separated by commas. -/
def encodeResources : List armDeploymentOutputResources → Str
  | [] => []
  | [r] => encodeResource r
  | r :: r1 :: rs => encodeResource r ++ ',' :: encodeResources (r1 :: rs)

/-- The compact JSON encoding of an `armDeployment`, members named by the JSON tags of the
fields and written in the order of the fields. -/
def encodeDeployment (d : armDeployment) : Str :=
  '\x7b' :: (encodeKey "properties" ++ '\x7b' :: (encodeKey "outputResources" ++ '[' ::
    (encodeResources d.Properties.OutputResources ++ [']', '\x7d', '\x7d'])))

/-- The item the scanner yields for an encoded rune. -/
def itemOf (c : Char) : StrItem :=
  if c.toNat < 0x20 then .esc c.toNat else .rune c

/-- The JSON value of an output resource. -/
def resourceValue (r : armDeploymentOutputResources) : JValue :=
  .obj [("id".toList, .str r.ID), ("resourceGroup".toList, .str r.ResourceGroup)]

/-- The members of an object whose key selects the field with JSON name `name`. -/
def membersFor (name : String) : JValue → List (Str × JValue)
  | .obj kvs => kvs.filter (fun kv => keyMatches name kv.1)
  | _ => []

/-- A value a `string` field takes without a type error. -/
def stringOrNull : JValue → Bool
  | .str _ => true
  | .null => true
  | _ => false

/-- An output resource that decodes without a type error: `null`, or an object whose members
selecting `id` or `resourceGroup` are strings or `null`. -/
def wellTypedResource : JValue → Bool
  | .obj kvs =>
    kvs.all (fun kv =>
      (!(keyMatches "id" kv.1) && !(keyMatches "resourceGroup" kv.1)) || stringOrNull kv.2)
  | .null => true
  | _ => false

/-- The step of `bindResource` for one member. -/
def resourceStep (acc : armDeploymentOutputResources × Bool) (kv : Str × JValue) :
    armDeploymentOutputResources × Bool :=
  if keyMatches "id" kv.1 then
    ({ acc.1 with ID := (bindString acc.1.ID kv.2).1 },
      acc.2 || (bindString acc.1.ID kv.2).2)
  else if keyMatches "resourceGroup" kv.1 then
    ({ acc.1 with ResourceGroup := (bindString acc.1.ResourceGroup kv.2).1 },
      acc.2 || (bindString acc.1.ResourceGroup kv.2).2)
  else acc

/-- The member of an object with exactly the key `key` (the first one, should the key be
repeated). -/
def JValue.member (key : String) : JValue → Option JValue
  | .obj kvs => (kvs.find? (fun kv => kv.1 = key.toList)).map (fun kv => kv.2)
  | _ => none

/-- What a JSON text has at `properties.outputResources[0].id`, if that is a string. -/
def documentFirstID (data : Str) : Option Str :=
  match jsonParse data with
  | .error _ => none
  | .ok d =>
    match (d.member "properties").bind (JValue.member "outputResources") with
    | some (.arr (x :: _)) =>
      match x.member "id" with
      | some (.str s) => some s
      | _ => none
    | _ => none

/-! ## Scenario data (the literal scenarios of the specification) -/

/-- Resource group and template of the scenarios. -/
def scenarioOptions : ClusterOptions :=
  { ResourceGroup := "rg1".toList, Template := "/tmp/t.json".toList }

/-- A driver on which no verb has run yet. -/
def scenarioDeployer : aksDeployer :=
  { ClusterOptions := scenarioOptions, clusterResourceID := [] }

/-- The cluster identifier of the scenarios. -/
def scenarioID : Str :=
  "/subscriptions/S/resourcegroups/rg1/providers/Microsoft.ContainerService/managedClusters/c1".toList

/-- The deployment result of scenario S1. -/
def scenarioDeployment : Str :=
  ("\x7b\"properties\":\x7b\"outputResources\":[\x7b\"id\":\"/subscriptions/S/resourcegroups/rg1/"
    ++ "providers/Microsoft.ContainerService/managedClusters/c1\",\"resourceGroup\":\"rg1\"\x7d]\x7d\x7d").toList

/-- A deployment result without output resources. -/
def emptyDeployment : Str :=
  "\x7b\"properties\":\x7b\"outputResources\":[]\x7d\x7d".toList

/-- The dry-run preview of scenario S2. -/
def scenarioPreview : Str :=
  ("Resource changes: 1 to create.\n\nScope: /subscriptions/S/resourceGroups/rg1\n\n"
    ++ "  + Microsoft.ContainerService/managedClusters/c1\n").toList

/-- A deployment result as the tool prints it: indented, with members the driver does not
read. -/
def scenarioDocument : Str :=
  ("\x7b\n  \"id\": \"/subscriptions/S/resourceGroups/rg1/providers/Microsoft.Resources/deployments/t\",\n"
    ++ "  \"name\": \"t\",\n"
    ++ "  \"properties\": \x7b\n"
    ++ "    \"duration\": \"PT4M\",\n"
    ++ "    \"outputResources\": [\n"
    ++ "      \x7b\n"
    ++ "        \"id\": \"/subscriptions/S/resourcegroups/rg1/providers/Microsoft.ContainerService/managedClusters/c1\",\n"
    ++ "        \"resourceGroup\": \"rg1\"\n"
    ++ "      \x7d\n"
    ++ "    ],\n"
    ++ "    \"outputs\": null,\n"
    ++ "    \"provisioningState\": \"Succeeded\"\n"
    ++ "  \x7d,\n"
    ++ "  \"resourceGroup\": \"rg1\"\n"
    ++ "\x7d\n").toList

/-- The first output resource of `scenarioDocument`. -/
def scenarioResourceValue : JValue :=
  .obj [("id".toList, .str scenarioID), ("resourceGroup".toList, .str "rg1".toList)]

/-- The member `properties` of `scenarioDocument`. -/
def scenarioPropertiesValue : JValue :=
  .obj [("duration".toList, .str "PT4M".toList),
    ("outputResources".toList, .arr [scenarioResourceValue]),
    ("outputs".toList, .null),
    ("provisioningState".toList, .str "Succeeded".toList)]

/-- The JSON value of `scenarioDocument`. -/
def scenarioDocumentValue : JValue :=
  .obj [("id".toList,
      .str "/subscriptions/S/resourceGroups/rg1/providers/Microsoft.Resources/deployments/t".toList),
    ("name".toList, .str "t".toList),
    ("properties".toList, scenarioPropertiesValue),
    ("resourceGroup".toList, .str "rg1".toList)]

/-- A deployment result whose first output resource has a second member selecting `id`. -/
def repeatedKeyDocument : Str :=
  ("\x7b\"properties\":\x7b\"outputResources\":[\x7b\"id\":\"a\",\"ID\":\"b\"\x7d]\x7d\x7d").toList

/-- A deployment result whose second output resource has a number as `id`. -/
def mistypedDocument : Str :=
  ("\x7b\"properties\":\x7b\"outputResources\":[\x7b\"id\":\"a\"\x7d,\x7b\"id\":5\x7d]\x7d\x7d").toList

/-- A cluster identifier whose last segment holds path elements. -/
def traversalID : Str :=
  ("/subscriptions/S/resourcegroups/rg1/providers/Microsoft.ContainerService/managedClusters/"
    ++ "a/../../y").toList

/-- A deployment result with `traversalID` as the first output resource. -/
def traversalDeployment : Str :=
  ("\x7b\"properties\":\x7b\"outputResources\":[\x7b\"id\":\"/subscriptions/S/resourcegroups/rg1/"
    ++ "providers/Microsoft.ContainerService/managedClusters/a/../../y\",\"resourceGroup\":\"rg1\"\x7d]\x7d\x7d").toList

/-- A host on which every command of the scenarios succeeds; `output` is what the deployment
submission prints and `preview` what the dry run prints. -/
def scenarioHost (output preview : Str) : Host where
  run := fun _ cmd =>
    if cmd = createCmd scenarioOptions.ResourceGroup scenarioOptions.Template then
      { stdout := output, stderr := [], err := none }
    else if cmd = whatIfCmd scenarioOptions.ResourceGroup scenarioOptions.Template then
      { stdout := preview, stderr := [], err := none }
    else if cmd.take 3 = ["az".toList, "aks".toList, "get-credentials".toList] then
      { stdout := "KBYTES".toList, stderr := [], err := none }
    else if cmd.take 2 = ["az".toList, "resource".toList] then
      { stdout := [], stderr := [], err := none }
    else
      { stdout := [], stderr := "ERROR: unrecognized arguments".toList,
        err := some (.errorString "exit status 2".toList) }
  jsonUnmarshal := jsonUnmarshal
  tempDir := fun _ _ pattern => .ok ("/tmp/".toList ++ pattern ++ "123456".toList)
  writeFile := fun _ _ _ => none
  setenv := fun _ _ _ => none

/-- A host whose external tool fails on every command. -/
def failingHost : Host :=
  { scenarioHost [] [] with
    run := fun _ _ =>
      { stdout := [], stderr := "ERROR: Please run az login to setup account.".toList,
        err := some (.errorString "exit status 1".toList) } }

/-- The world before any verb has run. -/
def emptyWorld : World :=
  { calls := [], dirs := [], files := fun _ => none, env := fun _ => none }

/-- The identifier `parseWhatIf` predicts from the preview of scenario S2. -/
def scenarioPredictedID : Str :=
  "/subscriptions/S/resourceGroups/rg1/Microsoft.ContainerService/managedClusters/c1".toList

/-! ## Theorems -/

/-- C9 (as stated, refuted): on a fresh driver `DumpClusterLogs` and `Build` do not return an
error value to the caller; both abort with the panic `not implemented`. -/
theorem unimplemented_verbs_abort :
    (DumpClusterLogs newDeployer).1 = Outcome.panic "not implemented".toList ∧
    (Build newDeployer).1 = Outcome.panic "not implemented".toList := by
  exact ⟨rfl, rfl⟩

/-- C9 (amended): for every driver state, `DumpClusterLogs` and `Build` abort with the panic
`not implemented` on every call, return no value, and leave the driver state unchanged. -/
theorem unimplemented_verbs_panic (ad : aksDeployer) :
    DumpClusterLogs ad = (Outcome.panic "not implemented".toList, ad) ∧
    Build ad = (Outcome.panic "not implemented".toList, ad) ∧
    (∀ r, (DumpClusterLogs ad).1 ≠ Outcome.ret r) ∧
    (∀ r, (Build ad).1 ≠ Outcome.ret r) := by
  refine ⟨rfl, rfl, ?_, ?_⟩ <;> intro r hr <;> simp [DumpClusterLogs, Build] at hr

/-- C4 (code defect): whenever `json.Unmarshal` succeeds and leaves `OutputResources` empty
(the array is missing or empty), `parseResourceID` aborts with an index-out-of-range panic
instead of returning an error. -/
theorem parseResourceID_empty_panics (unmarshal : Str → Except GoError armDeployment)
    (output : Str) (d : armDeployment) (hd : unmarshal output = .ok d)
    (he : d.Properties.OutputResources = []) :
    parseResourceID unmarshal output =
      Outcome.panic "runtime error: index out of range [0] with length 0".toList := by
  simp [parseResourceID, hd, he]

/-- Witness of `parseResourceID_empty_panics`: the document
`{"properties":{"outputResources":[]}}`, decoded by `jsonUnmarshal`. -/
theorem parseResourceID_empty_panics_witness :
    jsonUnmarshal emptyDeployment = .ok { Properties := { OutputResources := [] } } ∧
    parseResourceID jsonUnmarshal emptyDeployment =
      Outcome.panic "runtime error: index out of range [0] with length 0".toList :=
  ⟨by decide, parseResourceID_empty_panics jsonUnmarshal emptyDeployment
    { Properties := { OutputResources := [] } } (by decide) rfl⟩

/-! ### parseResourceID on JSON documents -/

theorem hexVal_hexDigit : ∀ k, k < 16 → hexVal (hexDigit k) = some k := by
  decide

theorem scanItems_quote (rest : Str) : scanItems ('"' :: rest) = .ok ([], rest) := by
  rw [scanItems.eq_def]
  simp

theorem scanItems_simple (e x : Char) (t : Str) (he : e ≠ 'u')
    (hx : simpleEscape e = some x) :
    scanItems ('\\' :: e :: t) =
      match scanItems t with
      | .error err => .error err
      | .ok (items, rest) => .ok (StrItem.rune x :: items, rest) := by
  rw [scanItems.eq_def]
  simp [he, hx]

theorem scanItems_hex (a b c d : Char) (va vb vc vd : Nat) (t : Str)
    (ha : hexVal a = some va) (hb : hexVal b = some vb) (hc : hexVal c = some vc)
    (hd : hexVal d = some vd) :
    scanItems ('\\' :: 'u' :: a :: b :: c :: d :: t) =
      match scanItems t with
      | .error err => .error err
      | .ok (items, rest) =>
        .ok (StrItem.esc (((va * 16 + vb) * 16 + vc) * 16 + vd) :: items, rest) := by
  rw [scanItems.eq_def]
  simp [ha, hb, hc, hd]

theorem scanItems_plain (c : Char) (t : Str) (h1 : c ≠ '"') (h2 : c ≠ '\\')
    (h3 : ¬ c.toNat < 0x20) :
    scanItems (c :: t) =
      match scanItems t with
      | .error err => .error err
      | .ok (items, rest) => .ok (StrItem.rune c :: items, rest) := by
  rw [scanItems.eq_def]
  simp [h1, h2, h3]

theorem scanItems_quoteChar (c : Char) (t : Str) :
    scanItems (quoteChar c ++ t) =
      match scanItems t with
      | .error err => .error err
      | .ok (items, rest) => .ok (itemOf c :: items, rest) := by
  unfold quoteChar
  by_cases h1 : c = '"'
  · subst h1
    simp only [if_true, List.cons_append, List.nil_append]
    rw [scanItems_simple '"' '"' t (by decide) (by decide)]
    rfl
  · by_cases h2 : c = '\\'
    · subst h2
      simp only [h1, if_false, if_true, List.cons_append, List.nil_append]
      rw [scanItems_simple '\\' '\\' t (by decide) (by decide)]
      rfl
    · by_cases h3 : c.toNat < 0x20
      · have ha : hexVal (hexDigit (c.toNat / 16)) = some (c.toNat / 16) :=
          hexVal_hexDigit _ (by omega)
        have hb : hexVal (hexDigit (c.toNat % 16)) = some (c.toNat % 16) :=
          hexVal_hexDigit _ (by omega)
        have h0 : hexVal '0' = some 0 := by decide
        have hval : ((0 * 16 + 0) * 16 + c.toNat / 16) * 16 + c.toNat % 16 = c.toNat := by
          omega
        simp only [h1, h2, h3, if_false, if_true, List.cons_append, List.nil_append]
        rw [scanItems_hex _ _ _ _ _ _ _ _ t h0 h0 ha hb, hval]
        simp only [itemOf, h3, if_true]
      · simp only [h1, h2, h3, if_false, List.cons_append, List.nil_append]
        rw [scanItems_plain c t h1 h2 h3]
        simp only [itemOf, h3, if_false]

theorem scanItems_quoteBody (rest : Str) :
    ∀ s, scanItems (quoteBody s ++ rest) = .ok (s.map itemOf, rest) := by
  intro s
  induction s with
  | nil => simp only [quoteBody, List.cons_append, List.nil_append, scanItems_quote, List.map_nil]
  | cons c cs ih =>
    simp only [quoteBody, List.append_assoc, scanItems_quoteChar, ih, List.map_cons]

theorem combine_esc_low (n : Nat) (t : List StrItem) (hn : n < 0x20) :
    combine (.esc n :: t) = Char.ofNat n :: combine t := by
  have hd : decodeUnit n = Char.ofNat n := by
    unfold decodeUnit
    rw [if_neg (by omega)]
  cases t with
  | nil => simp [combine, hd]
  | cons x t =>
    cases x with
    | rune c => simp [combine, hd]
    | esc lo =>
      simp only [combine, hd]
      rw [if_neg (by omega)]

theorem combine_itemOf : ∀ s : Str, combine (s.map itemOf) = s := by
  intro s
  induction s with
  | nil => rfl
  | cons c cs ih =>
    by_cases h : c.toNat < 0x20
    · simp only [List.map_cons, itemOf, h, if_true, combine_esc_low _ _ h, ih,
        Char.ofNat_toNat]
    · simp only [List.map_cons, itemOf, h, if_false, combine, ih]

theorem scanString_quoteBody (s rest : Str) :
    scanString (quoteBody s ++ rest) = .ok (s, rest) := by
  simp only [scanString, scanItems_quoteBody, combine_itemOf]

theorem skipWs_cons (c : Char) (r : Str) (h : isSpace c = false) :
    skipWs (c :: r) = c :: r := by
  simp [skipWs, h]

theorem parseValue_string (depth : Nat) (s rest : Str) :
    parseValue depth (encodeString s ++ rest) = .ok (.str s, rest) := by
  rw [parseValue.eq_def]
  simp only [encodeString, List.cons_append, skipWs_cons '"' _ (by decide), if_true,
    scanString_quoteBody]

theorem parseMembers_last (pv : Str → Except GoError (JValue × Str)) (n : Nat)
    (name : String) (vt rest : Str) (v : JValue)
    (hv : pv vt = .ok (v, '\x7d' :: rest)) :
    parseMembers pv (n + 1) (encodeKey name ++ vt) = .ok ([(name.toList, v)], rest) := by
  simp only [encodeKey, List.cons_append, List.append_assoc, List.nil_append, parseMembers,
    skipWs_cons '"' _ (by decide), scanString_quoteBody, skipWs_cons ':' _ (by decide), hv,
    skipWs_cons '\x7d' _ (by decide)]
  simp

theorem parseMembers_more (pv : Str → Except GoError (JValue × Str)) (n : Nat)
    (name : String) (vt more : Str) (v : JValue)
    (hv : pv vt = .ok (v, ',' :: more)) :
    parseMembers pv (n + 1) (encodeKey name ++ vt) =
      match parseMembers pv n more with
      | .error err => .error err
      | .ok (kvs, rest) => .ok ((name.toList, v) :: kvs, rest) := by
  simp only [encodeKey, List.cons_append, List.append_assoc, List.nil_append, parseMembers,
    skipWs_cons '"' _ (by decide), scanString_quoteBody, skipWs_cons ':' _ (by decide), hv,
    skipWs_cons ',' _ (by decide)]
  simp

theorem parseObject_key (pv : Str → Except GoError (JValue × Str)) (name : String)
    (t : Str) :
    parseObject pv (encodeKey name ++ t) =
      match parseMembers pv (encodeKey name ++ t).length (encodeKey name ++ t) with
      | .error err => .error err
      | .ok (kvs, rest) => .ok (.obj kvs, rest) := by
  simp only [encodeKey, List.cons_append, parseObject, skipWs_cons '"' _ (by decide)]
  simp

theorem encodeKey_length (name : String) (t : Str) :
    ∃ m, (encodeKey name ++ t).length = m + 1 := by
  exact ⟨_, by simp [encodeKey]; rfl⟩

theorem parseValue_object (depth : Nat) (name : String) (t : Str) :
    parseValue (depth + 1) ('\x7b' :: (encodeKey name ++ t)) =
      match parseMembers (parseValue depth) (encodeKey name ++ t).length
          (encodeKey name ++ t) with
      | .error err => .error err
      | .ok (kvs, rest) => .ok (.obj kvs, rest) := by
  rw [parseValue.eq_def]
  simp only [skipWs_cons '\x7b' _ (by decide), show ¬ ('\x7b' = '"') by decide, if_false,
    if_true, parseObject_key]

theorem parseValue_resource (depth : Nat) (r : armDeploymentOutputResources) (rest : Str) :
    parseValue (depth + 1) (encodeResource r ++ rest) = .ok (resourceValue r, rest) := by
  have h2 : parseValue depth (encodeString r.ResourceGroup ++ '\x7d' :: rest)
      = .ok (.str r.ResourceGroup, '\x7d' :: rest) := parseValue_string _ _ _
  have h1 : parseValue depth (encodeString r.ID ++ ',' ::
      (encodeKey "resourceGroup" ++ (encodeString r.ResourceGroup ++ '\x7d' :: rest)))
      = .ok (.str r.ID, ',' ::
        (encodeKey "resourceGroup" ++ (encodeString r.ResourceGroup ++ '\x7d' :: rest))) :=
    parseValue_string _ _ _
  have hshape : encodeResource r ++ rest = '\x7b' :: (encodeKey "id" ++ (encodeString r.ID
      ++ ',' :: (encodeKey "resourceGroup" ++ (encodeString r.ResourceGroup
        ++ '\x7d' :: rest)))) := by
    simp [encodeResource]
  have hlen : ∃ m, (encodeKey "id" ++ (encodeString r.ID
      ++ ',' :: (encodeKey "resourceGroup" ++ (encodeString r.ResourceGroup
        ++ '\x7d' :: rest)))).length = m + 2 := by
    refine ⟨(quoteBody "id".toList).length + ((encodeString r.ID
      ++ ',' :: (encodeKey "resourceGroup" ++ (encodeString r.ResourceGroup
        ++ '\x7d' :: rest))).length), ?_⟩
    simp [encodeKey]
    omega
  obtain ⟨m, hm⟩ := hlen
  rw [hshape, parseValue_object, hm, parseMembers_more _ _ _ _ _ _ h1,
    parseMembers_last _ _ _ _ _ _ h2]
  rfl

theorem parseElems_resources (depth : Nat) (rest : Str) :
    ∀ (rs : List armDeploymentOutputResources), rs ≠ [] → ∀ n, rs.length ≤ n →
      parseElems (parseValue (depth + 1)) n (encodeResources rs ++ ']' :: rest)
        = .ok (rs.map resourceValue, rest) := by
  intro rs
  induction rs with
  | nil => intro h; exact absurd rfl h
  | cons r rs ih =>
    intro _ n hn
    obtain ⟨m, rfl⟩ : ∃ m, n = m + 1 := ⟨n - 1, by simp at hn; omega⟩
    cases rs with
    | nil =>
      simp only [encodeResources, parseElems, parseValue_resource,
        skipWs_cons ']' _ (by decide)]
      simp
    | cons r1 rs1 =>
      have h1 := ih (by simp) m (by simp at hn ⊢; omega)
      simp only [encodeResources, List.append_assoc, List.cons_append, parseElems,
        parseValue_resource, skipWs_cons ',' _ (by decide), if_true, h1]
      simp

theorem encodeResources_head (rs : List armDeploymentOutputResources) (hne : rs ≠ [])
    (t : Str) : ∃ u, encodeResources rs ++ t = '\x7b' :: u := by
  cases rs with
  | nil => exact absurd rfl hne
  | cons r rs =>
    cases rs with
    | nil => exact ⟨_, by simp [encodeResources, encodeResource]; rfl⟩
    | cons r1 rs1 => exact ⟨_, by simp [encodeResources, encodeResource]; rfl⟩

theorem encodeResource_length (r : armDeploymentOutputResources) :
    1 ≤ (encodeResource r).length := by
  simp [encodeResource]

theorem encodeResources_length :
    ∀ (rs : List armDeploymentOutputResources), rs.length ≤ (encodeResources rs).length := by
  intro rs
  induction rs with
  | nil => simp
  | cons r rs ih =>
    cases rs with
    | nil =>
      have := encodeResource_length r
      simpa [encodeResources] using this
    | cons r1 rs1 =>
      have := encodeResource_length r
      simp only [encodeResources, List.length_append, List.length_cons] at ih ⊢
      omega

theorem parseValue_array (depth : Nat) (rs : List armDeploymentOutputResources)
    (hne : rs ≠ []) (rest : Str) :
    parseValue (depth + 2) ('[' :: (encodeResources rs ++ ']' :: rest))
      = .ok (.arr (rs.map resourceValue), rest) := by
  obtain ⟨u, hu⟩ := encodeResources_head rs hne (']' :: rest)
  have hlen : rs.length ≤ (encodeResources rs ++ ']' :: rest).length := by
    have := encodeResources_length rs
    simp only [List.length_append]
    omega
  have h := parseElems_resources depth rest rs hne _ hlen
  rw [parseValue.eq_def]
  simp only [skipWs_cons '[' _ (by decide), show ¬ ('[' = '"') by decide,
    show ¬ ('[' = '\x7b') by decide, if_false, if_true, parseArray]
  rw [hu, skipWs_cons '\x7b' _ (by decide)]
  simp only [show ¬ ('\x7b' = ']') by decide, if_false]
  rw [← hu, h]

/-- The JSON value of an encoded deployment. -/
theorem parseValue_deployment (d : armDeployment) (hne : d.Properties.OutputResources ≠ []) :
    parseValue 10000 (encodeDeployment d) =
      .ok (.obj [("properties".toList, .obj [("outputResources".toList,
        .arr (d.Properties.OutputResources.map resourceValue))])], []) := by
  have harr := parseValue_array 9996 d.Properties.OutputResources hne ['\x7d', '\x7d']
  have hin : parseValue 9999 ('\x7b' :: (encodeKey "outputResources" ++ '[' ::
      (encodeResources d.Properties.OutputResources ++ [']', '\x7d', '\x7d'])))
      = .ok (.obj [("outputResources".toList,
          .arr (d.Properties.OutputResources.map resourceValue))], ['\x7d']) := by
    obtain ⟨m, hm⟩ := encodeKey_length "outputResources" ('[' ::
      (encodeResources d.Properties.OutputResources ++ [']', '\x7d', '\x7d']))
    rw [show (9999 : Nat) = 9998 + 1 from rfl, parseValue_object, hm,
      parseMembers_last _ _ _ _ _ _ harr]
  obtain ⟨m, hm⟩ := encodeKey_length "properties" ('\x7b' :: (encodeKey "outputResources"
    ++ '[' :: (encodeResources d.Properties.OutputResources ++ [']', '\x7d', '\x7d'])))
  rw [encodeDeployment, show (10000 : Nat) = 9999 + 1 from rfl, parseValue_object, hm,
    parseMembers_last _ _ _ _ _ _ hin]

theorem bindResource_value (r : armDeploymentOutputResources) :
    bindResource { ID := [], ResourceGroup := [] } (resourceValue r) = (r, false) := by
  have k1 : keyMatches "id" ['i', 'd'] = true := by decide
  have k2 : keyMatches "id"
      ['r', 'e', 's', 'o', 'u', 'r', 'c', 'e', 'G', 'r', 'o', 'u', 'p'] = false := by decide
  have k3 : keyMatches "resourceGroup"
      ['r', 'e', 's', 'o', 'u', 'r', 'c', 'e', 'G', 'r', 'o', 'u', 'p'] = true := by decide
  simp [bindResource, resourceValue, List.foldl, k1, k2, k3, bindString]

theorem bindSlots_values :
    ∀ (rs : List armDeploymentOutputResources),
      bindSlots (rs.map resourceValue) [] = (rs, false) := by
  intro rs
  induction rs with
  | nil => rfl
  | cons r rs ih =>
    simp [bindSlots, bindResource_value, ih]

/-- Decoding the encoding of a deployment with at least one output resource gives the
deployment back. -/
theorem jsonUnmarshal_encodeDeployment (d : armDeployment)
    (hne : d.Properties.OutputResources ≠ []) :
    jsonUnmarshal (encodeDeployment d) = .ok d := by
  have k1 : keyMatches "properties"
      ['p', 'r', 'o', 'p', 'e', 'r', 't', 'i', 'e', 's'] = true := by decide
  have k2 : keyMatches "outputResources"
      ['o', 'u', 't', 'p', 'u', 't', 'R', 'e', 's', 'o', 'u', 'r', 'c', 'e', 's'] = true := by
    decide
  obtain ⟨first, rest, hrs⟩ : ∃ first rest, d.Properties.OutputResources = first :: rest := by
    cases h : d.Properties.OutputResources with
    | nil => exact absurd h hne
    | cons a b => exact ⟨a, b, rfl⟩
  have hbind : bindDeployment (.obj [("properties".toList, .obj [("outputResources".toList,
      .arr (d.Properties.OutputResources.map resourceValue))])])
      = ({ elems := d.Properties.OutputResources, spare := [] }, false) := by
    have hs := bindSlots_values (first :: rest)
    rw [hrs]
    simp only [List.map_cons] at hs ⊢
    simp [bindDeployment, bindProperties, bindSlice, List.foldl, k1, k2, hs]
  simp only [jsonUnmarshal, jsonParse, parseValue_deployment d hne, skipWs, hbind]
  rfl

theorem bindResource_obj (cur : armDeploymentOutputResources) (kvs : List (Str × JValue)) :
    bindResource cur (.obj kvs) = kvs.foldl resourceStep (cur, false) := rfl

theorem bindString_flag (cur : Str) (v : JValue) (h : stringOrNull v = true) :
    (bindString cur v).2 = false := by
  cases v <;> simp [stringOrNull] at h <;> rfl

theorem resourceStep_flag (acc : armDeploymentOutputResources × Bool) (kv : Str × JValue)
    (h : ((!(keyMatches "id" kv.1) && !(keyMatches "resourceGroup" kv.1))
      || stringOrNull kv.2) = true) :
    (resourceStep acc kv).2 = acc.2 := by
  unfold resourceStep
  by_cases h1 : keyMatches "id" kv.1 = true
  · have hs : stringOrNull kv.2 = true := by simpa [h1] using h
    simp [h1, bindString_flag _ _ hs]
  · by_cases h2 : keyMatches "resourceGroup" kv.1 = true
    · have hs : stringOrNull kv.2 = true := by simpa [h1, h2] using h
      simp [h1, h2, bindString_flag _ _ hs]
    · simp [h1, h2]

theorem foldl_resourceStep_flag :
    ∀ (kvs : List (Str × JValue)) (acc : armDeploymentOutputResources × Bool),
      (∀ kv ∈ kvs, ((!(keyMatches "id" kv.1) && !(keyMatches "resourceGroup" kv.1))
        || stringOrNull kv.2) = true) →
      (kvs.foldl resourceStep acc).2 = acc.2 := by
  intro kvs
  induction kvs with
  | nil => intro acc _; rfl
  | cons kv kvs ih =>
    intro acc h
    simp only [List.foldl_cons]
    rw [ih _ (fun kv1 h1 => h kv1 (List.mem_cons_of_mem _ h1)),
      resourceStep_flag _ _ (h kv (List.mem_cons_self _ _))]

theorem bindResource_flag (cur : armDeploymentOutputResources) (v : JValue)
    (h : wellTypedResource v = true) : (bindResource cur v).2 = false := by
  cases v with
  | obj kvs =>
    rw [bindResource_obj, foldl_resourceStep_flag kvs _ (by
      intro kv hkv
      simp only [wellTypedResource, List.all_eq_true] at h
      exact h kv hkv)]
  | null => rfl
  | bool b => simp [wellTypedResource] at h
  | num l => simp [wellTypedResource] at h
  | str s => simp [wellTypedResource] at h
  | arr xs => simp [wellTypedResource] at h

theorem resourceStep_other (acc : armDeploymentOutputResources × Bool) (kv : Str × JValue)
    (h : keyMatches "id" kv.1 = false) : (resourceStep acc kv).1.ID = acc.1.ID := by
  unfold resourceStep
  by_cases h2 : keyMatches "resourceGroup" kv.1 = true
  · simp [h, h2]
  · simp [h, h2]

theorem foldl_resourceStep_other :
    ∀ (kvs : List (Str × JValue)) (acc : armDeploymentOutputResources × Bool),
      kvs.filter (fun kv => keyMatches "id" kv.1) = [] →
      (kvs.foldl resourceStep acc).1.ID = acc.1.ID := by
  intro kvs
  induction kvs with
  | nil => intro acc _; rfl
  | cons kv kvs ih =>
    intro acc h
    have hk : keyMatches "id" kv.1 = false := by
      cases hk0 : keyMatches "id" kv.1 with
      | false => rfl
      | true =>
        rw [List.filter_cons, if_pos hk0] at h
        exact absurd h (List.cons_ne_nil _ _)
    have hrest : kvs.filter (fun kv => keyMatches "id" kv.1) = [] := by
      rw [List.filter_cons, if_neg (by rw [hk]; exact Bool.false_ne_true)] at h
      exact h
    simp only [List.foldl_cons]
    rw [ih _ hrest, resourceStep_other _ _ hk]

theorem foldl_resourceStep_id (s : Str) :
    ∀ (kvs : List (Str × JValue)) (acc : armDeploymentOutputResources × Bool),
      kvs.filter (fun kv => keyMatches "id" kv.1) = [("id".toList, .str s)] →
      (kvs.foldl resourceStep acc).1.ID = s := by
  intro kvs
  induction kvs with
  | nil => intro acc h; simp at h
  | cons kv kvs ih =>
    intro acc h
    simp only [List.foldl_cons]
    by_cases hk : keyMatches "id" kv.1 = true
    · rw [List.filter_cons, if_pos hk] at h
      have hkv : kv = ("id".toList, .str s) := (List.cons.inj h).1
      have hrest : kvs.filter (fun kv => keyMatches "id" kv.1) = [] := (List.cons.inj h).2
      rw [foldl_resourceStep_other kvs _ hrest]
      subst hkv
      have k1 : keyMatches "id" ['i', 'd'] = true := by decide
      simp [resourceStep, k1, bindString]
    · rw [List.filter_cons, if_neg hk] at h
      exact ih _ h

theorem bindSlots_flag :
    ∀ (xs : List JValue) (slots : List armDeploymentOutputResources),
      (∀ y ∈ xs, wellTypedResource y = true) → (bindSlots xs slots).2 = false := by
  intro xs
  induction xs with
  | nil => intro _ _; rfl
  | cons x xs ih =>
    intro slots h
    simp only [bindSlots, Bool.or_eq_false_iff]
    exact ⟨bindResource_flag _ _ (h x (List.mem_cons_self _ _)),
      ih _ (fun y hy => h y (List.mem_cons_of_mem _ hy))⟩

/-- Folding a step that acts only on the members selected by `p` is folding over those. -/
theorem foldl_selected {α β : Type} (p : β → Bool) (f : α → β → α) :
    ∀ (l : List β) (a : α),
      l.foldl (fun acc kv => if p kv then f acc kv else acc) a = (l.filter p).foldl f a := by
  intro l
  induction l with
  | nil => intro a; rfl
  | cons x l ih =>
    intro a
    by_cases hx : p x = true
    · simp [List.filter_cons, hx, ih]
    · simp [List.filter_cons, hx, ih]

/-- C7 (amended): for every JSON text of a document whose single member selecting
`properties` is an object, whose single member selecting `outputResources` is a non-empty
array, whose first element has as its single member selecting `id` the string `s`, and whose
output resources decode without a type error, `parseResourceID` returns `s` and a nil error,
whatever further output resources and other members the document carries. -/
theorem parseResourceID_first_id (data : Str) (d p x : JValue) (xs : List JValue) (s : Str)
    (hd : jsonParse data = .ok d)
    (hp : membersFor "properties" d = [("properties".toList, p)])
    (ho : membersFor "outputResources" p = [("outputResources".toList, .arr (x :: xs))])
    (hid : membersFor "id" x = [("id".toList, .str s)])
    (hty : ∀ y ∈ x :: xs, wellTypedResource y = true) :
    parseResourceID jsonUnmarshal data = Outcome.ret (.ok s) := by
  obtain ⟨top, rfl⟩ : ∃ top, d = .obj top := by
    cases d <;> first | exact ⟨_, rfl⟩ | simp [membersFor] at hp
  obtain ⟨props, rfl⟩ : ∃ props, p = .obj props := by
    cases p <;> first | exact ⟨_, rfl⟩ | simp [membersFor] at ho
  obtain ⟨ms, rfl⟩ : ∃ ms, x = .obj ms := by
    cases x <;> first | exact ⟨_, rfl⟩ | simp [membersFor] at hid
  simp only [membersFor] at hp ho hid
  have hslots : bindSlots (.obj ms :: xs) [] =
      ((bindResource { ID := [], ResourceGroup := [] } (.obj ms)).1 :: (bindSlots xs []).1,
        false) := by
    have h1 := bindSlots_flag (.obj ms :: xs) [] hty
    simp only [bindSlots] at h1 ⊢
    simp only [List.headD_nil, List.tail_nil] at h1 ⊢
    rw [h1]
  have hfirst : (bindResource { ID := [], ResourceGroup := [] } (.obj ms)).1.ID = s := by
    rw [bindResource_obj]
    exact foldl_resourceStep_id s ms _ hid
  have hslice : bindSlice { elems := [], spare := [] } (.arr (.obj ms :: xs)) =
      ({ elems := (bindResource { ID := [], ResourceGroup := [] } (.obj ms)).1
            :: (bindSlots xs []).1,
          spare := [] }, false) := by
    simp only [bindSlice, List.append_nil, hslots, List.drop_nil]
  have hprops : bindProperties { elems := [], spare := [] } (.obj props) =
      ({ elems := (bindResource { ID := [], ResourceGroup := [] } (.obj ms)).1
            :: (bindSlots xs []).1,
          spare := [] }, false) := by
    simp only [bindProperties]
    rw [foldl_selected (fun (kv : Str × JValue) => keyMatches "outputResources" kv.1)
      (fun (acc : SliceState × Bool) (kv : Str × JValue) =>
        ((bindSlice acc.1 kv.2).1, acc.2 || (bindSlice acc.1 kv.2).2)), ho]
    simp only [List.foldl_cons, List.foldl_nil, hslice, Bool.or_false]
  have hdep : bindDeployment (.obj top) =
      ({ elems := (bindResource { ID := [], ResourceGroup := [] } (.obj ms)).1
            :: (bindSlots xs []).1,
          spare := [] }, false) := by
    simp only [bindDeployment]
    rw [foldl_selected (fun (kv : Str × JValue) => keyMatches "properties" kv.1)
      (fun (acc : SliceState × Bool) (kv : Str × JValue) =>
        ((bindProperties acc.1 kv.2).1, acc.2 || (bindProperties acc.1 kv.2).2)), hp]
    simp only [List.foldl_cons, List.foldl_nil, hprops, Bool.or_false]
  simp only [parseResourceID, jsonUnmarshal, hd, hdep]
  simp [hfirst]

/-- The encoding of a deployment with at least one output resource: `parseResourceID` returns
the `id` of the first one. -/
theorem parseResourceID_encodeDeployment (d : armDeployment)
    (first : armDeploymentOutputResources) (rest : List armDeploymentOutputResources)
    (hd : d.Properties.OutputResources = first :: rest) :
    parseResourceID jsonUnmarshal (encodeDeployment d) = Outcome.ret (.ok first.ID) := by
  have hne : d.Properties.OutputResources ≠ [] := by rw [hd]; exact List.cons_ne_nil _ _
  simp [parseResourceID, jsonUnmarshal_encodeDeployment d hne, hd]

/-- Witness of `parseResourceID_first_id`: an indented deployment result with members the
driver does not read. -/
theorem parseResourceID_first_id_witness :
    parseResourceID jsonUnmarshal scenarioDocument = Outcome.ret (.ok scenarioID) :=
  parseResourceID_first_id scenarioDocument scenarioDocumentValue scenarioPropertiesValue
    scenarioResourceValue [] scenarioID (by rfl) (by rfl) (by rfl) (by rfl) (by decide)

/-- C7 (as stated, refuted): in the first document the first output resource has the `id`
`a` and another member `ID`, and the function returns `b`; in the second document the first
output resource has the `id` `a` and a further output resource has a number as `id`, and the
function returns an error. -/
theorem parseResourceID_not_first_id :
    documentFirstID repeatedKeyDocument = some "a".toList ∧
    parseResourceID jsonUnmarshal repeatedKeyDocument = Outcome.ret (.ok "b".toList) ∧
    documentFirstID mistypedDocument = some "a".toList ∧
    parseResourceID jsonUnmarshal mistypedDocument = Outcome.ret (.error jsonTypeError) := by
  decide

/-! ### IsUp and Down -/

theorem runWithErrorOutput_eq (h : Host) (cmd : List Str) (w : World) :
    runWithErrorOutput h cmd w =
      (match (h.run w cmd).err with
        | some err => .error (wrapf ((h.run w cmd).stderr ++ " : ".toList) err)
        | none => .ok (h.run w cmd).stdout, w.record cmd) := by
  unfold runWithErrorOutput
  dsimp only
  split <;> rename_i hq <;> simp [hq]

/-- C1: `IsUp` returns a non-nil error exactly when the dry run fails; it returns
`(true, nil)` exactly when the dry run succeeds, `parseWhatIf` succeeds on its output and the
existence check of the predicted identifier succeeds, and then `clusterResourceID` is that
identifier; in every remaining case it returns `(false, nil)`. -/
theorem IsUp_classifies (h : Host) (ad : aksDeployer) (w : World) :
    let cmd := whatIfCmd ad.ClusterOptions.ResourceGroup ad.ClusterOptions.Template
    let dry := h.run w cmd
    let shown := fun id => (h.run (w.record cmd) (showCmd id)).err = none
    ((IsUp h ad w).1.2 ≠ none ↔ dry.err ≠ none) ∧
    ((IsUp h ad w).1 = (true, none) ↔
      dry.err = none ∧ ∃ id, parseWhatIf dry.stdout = .ok id ∧ shown id) ∧
    (∀ id, (IsUp h ad w).1 = (true, none) → parseWhatIf dry.stdout = .ok id →
      (IsUp h ad w).2.1.clusterResourceID = id) ∧
    (dry.err = none → (¬ ∃ id, parseWhatIf dry.stdout = .ok id ∧ shown id) →
      (IsUp h ad w).1 = (false, none)) := by
  intro cmd dry shown
  simp only [IsUp, runWithErrorOutput_eq]
  cases hd : (h.run w (whatIfCmd ad.ClusterOptions.ResourceGroup
      ad.ClusterOptions.Template)).err with
  | some err => simp [dry, cmd, hd]
  | none =>
    cases hp : parseWhatIf (h.run w (whatIfCmd ad.ClusterOptions.ResourceGroup
        ad.ClusterOptions.Template)).stdout with
    | error e => simp [dry, cmd, hd, hp]
    | ok id =>
      cases hs : (h.run (w.record (whatIfCmd ad.ClusterOptions.ResourceGroup
          ad.ClusterOptions.Template)) (showCmd id)).err with
      | some err => simp [dry, cmd, shown, hd, hp, hs]
      | none => simp [dry, cmd, shown, hd, hp, hs]

/-- Witness of `IsUp_classifies`: scenario S2 (the dry run prints a scope line and a
managed-cluster line, and the existence check succeeds). -/
theorem IsUp_classifies_witness :
    (IsUp (scenarioHost [] scenarioPreview) scenarioDeployer emptyWorld).1 = (true, none) ∧
    (IsUp (scenarioHost [] scenarioPreview) scenarioDeployer emptyWorld).2.1.clusterResourceID
      = scenarioPredictedID := by
  have key := IsUp_classifies (scenarioHost [] scenarioPreview) scenarioDeployer emptyWorld
  have hup := key.2.1.mpr ⟨by decide, scenarioPredictedID, by decide, by decide⟩
  exact ⟨hup, key.2.2.1 _ hup (by decide)⟩

theorem IsUp_eq (h : Host) (ad : aksDeployer) (w : World) :
    IsUp h ad w =
      match (h.run w (whatIfCmd ad.ClusterOptions.ResourceGroup
          ad.ClusterOptions.Template)).err with
      | some err =>
        ((false, some (wrapf
          ("Failed to query deployment [".toList ++ ad.ClusterOptions.Template ++ "]: ".toList)
          (wrapf ((h.run w (whatIfCmd ad.ClusterOptions.ResourceGroup
            ad.ClusterOptions.Template)).stderr ++ " : ".toList) err))), ad,
          w.record (whatIfCmd ad.ClusterOptions.ResourceGroup ad.ClusterOptions.Template))
      | none =>
        match parseWhatIf (h.run w (whatIfCmd ad.ClusterOptions.ResourceGroup
            ad.ClusterOptions.Template)).stdout with
        | .error _ =>
          ((false, none), ad,
            w.record (whatIfCmd ad.ClusterOptions.ResourceGroup ad.ClusterOptions.Template))
        | .ok id =>
          match (h.run (w.record (whatIfCmd ad.ClusterOptions.ResourceGroup
              ad.ClusterOptions.Template)) (showCmd id)).err with
          | some _ =>
            ((false, none), ad,
              (w.record (whatIfCmd ad.ClusterOptions.ResourceGroup
                ad.ClusterOptions.Template)).record (showCmd id))
          | none =>
            ((true, none), { ad with clusterResourceID := id },
              (w.record (whatIfCmd ad.ClusterOptions.ResourceGroup
                ad.ClusterOptions.Template)).record (showCmd id)) := by
  simp only [IsUp, runWithErrorOutput_eq]
  cases hd : (h.run w (whatIfCmd ad.ClusterOptions.ResourceGroup
      ad.ClusterOptions.Template)).err with
  | some err => simp
  | none =>
    cases hp : parseWhatIf (h.run w (whatIfCmd ad.ClusterOptions.ResourceGroup
        ad.ClusterOptions.Template)).stdout with
    | error e => simp [hp]
    | ok id =>
      cases hs : (h.run (w.record (whatIfCmd ad.ClusterOptions.ResourceGroup
          ad.ClusterOptions.Template)) (showCmd id)).err with
      | some err => simp [hp, hs]
      | none => simp [hp, hs]

theorem deletesSince_append (w w1 : World) (c : List Str) (l : List (List Str))
    (hl : w1.calls = w.calls ++ l) :
    deletesSince w (w1.record c) =
      deletesSince w w1 ++ (if c.take 4 = deletePrefix then [c] else []) := by
  simp [deletesSince, World.record, hl, List.filter_cons]

theorem deletesSince_self (w : World) : deletesSince w w = [] := by
  simp [deletesSince]

theorem whatIfCmd_not_delete (g t : Str) : ¬ (whatIfCmd g t).take 4 = deletePrefix := by
  show ¬ ["az".toList, "deployment".toList, "group".toList, "create".toList] = deletePrefix
  decide

theorem showCmd_not_delete (id : Str) : ¬ (showCmd id).take 4 = deletePrefix := by
  show ¬ ["az".toList, "resource".toList, "show".toList, "--ids".toList] = deletePrefix
  decide

theorem deleteCmd_is_delete (id : Str) : (deleteCmd id).take 4 = deletePrefix := rfl

theorem IsUp_calls (h : Host) (ad : aksDeployer) (w : World) :
    deletesSince w (IsUp h ad w).2.2 = [] ∧
    ∃ l, (IsUp h ad w).2.2.calls = w.calls ++ l := by
  have h1 : deletesSince w (w.record (whatIfCmd ad.ClusterOptions.ResourceGroup
      ad.ClusterOptions.Template)) = [] := by
    rw [deletesSince_append w w _ [] (by simp)]
    simp [deletesSince_self, whatIfCmd_not_delete]
  have h2 : ∀ id, deletesSince w ((w.record (whatIfCmd ad.ClusterOptions.ResourceGroup
      ad.ClusterOptions.Template)).record (showCmd id)) = [] := by
    intro id
    rw [deletesSince_append w _ _ [_] rfl]
    simp [h1, showCmd_not_delete]
  rw [IsUp_eq]
  cases (h.run w (whatIfCmd ad.ClusterOptions.ResourceGroup
      ad.ClusterOptions.Template)).err with
  | some err => exact ⟨h1, _, rfl⟩
  | none =>
    dsimp only
    cases parseWhatIf (h.run w (whatIfCmd ad.ClusterOptions.ResourceGroup
        ad.ClusterOptions.Template)).stdout with
    | error e => exact ⟨h1, _, rfl⟩
    | ok id =>
      dsimp only
      cases (h.run (w.record (whatIfCmd ad.ClusterOptions.ResourceGroup
          ad.ClusterOptions.Template)) (showCmd id)).err with
      | some err =>
        exact ⟨h2 id, [whatIfCmd ad.ClusterOptions.ResourceGroup ad.ClusterOptions.Template,
          showCmd id], by simp [World.record]⟩
      | none =>
        exact ⟨h2 id, [whatIfCmd ad.ClusterOptions.ResourceGroup ad.ClusterOptions.Template,
          showCmd id], by simp [World.record]⟩

/-- C2: the `deleteResource` invocations of one call of `Down` are none when its `IsUp` step
returns `(false, nil)`, and then `Down` returns nil; they are exactly one, with the identifier
`IsUp` stored in `clusterResourceID`, when `IsUp` returns `(true, nil)`, and then `Down`
returns nil if that deletion succeeds. -/
theorem Down_deletes (h : Host) (ad : aksDeployer) (w : World) :
    ((IsUp h ad w).1 = (false, none) →
      (Down h ad w).1 = none ∧ deletesSince w (Down h ad w).2.2 = []) ∧
    ((IsUp h ad w).1 = (true, none) →
      deletesSince w (Down h ad w).2.2 = [deleteCmd (IsUp h ad w).2.1.clusterResourceID] ∧
      ((h.run (IsUp h ad w).2.2 (deleteCmd (IsUp h ad w).2.1.clusterResourceID)).err = none →
        (Down h ad w).1 = none)) := by
  obtain ⟨hnone, l, hl⟩ := IsUp_calls h ad w
  unfold Down deleteResource
  rcases hu : IsUp h ad w with ⟨⟨up, err⟩, ad1, w1⟩
  rw [hu] at hnone hl
  simp only at hnone hl
  constructor
  · intro hr
    simp only [Prod.mk.injEq] at hr
    obtain ⟨rfl, rfl⟩ := hr
    exact ⟨rfl, hnone⟩
  · intro hr
    simp only [Prod.mk.injEq] at hr
    obtain ⟨rfl, rfl⟩ := hr
    simp only [runWithErrorOutput_eq]
    cases hdel : (h.run w1 (deleteCmd ad1.clusterResourceID)).err with
    | some e =>
      simp [deletesSince_append w w1 _ l hl, hnone, deleteCmd_is_delete]
    | none =>
      simp [deletesSince_append w w1 _ l hl, hnone, deleteCmd_is_delete]

/-- Witness of `Down_deletes`: scenario S5 (the preview has no managed-cluster line, nothing
is deleted) and scenario S6 (the cluster exists and is deleted once). -/
theorem Down_deletes_witness :
    ((Down (scenarioHost [] "Scope: /subscriptions/S/resourceGroups/rg1".toList)
        scenarioDeployer emptyWorld).1 = none ∧
      deletesSince emptyWorld
        (Down (scenarioHost [] "Scope: /subscriptions/S/resourceGroups/rg1".toList)
          scenarioDeployer emptyWorld).2.2 = []) ∧
    deletesSince emptyWorld (Down (scenarioHost [] scenarioPreview) scenarioDeployer
      emptyWorld).2.2 = [deleteCmd scenarioPredictedID] ∧
    (Down (scenarioHost [] scenarioPreview) scenarioDeployer emptyWorld).1 = none := by
  have absent := (Down_deletes (scenarioHost [] "Scope: /subscriptions/S/resourceGroups/rg1".toList)
    scenarioDeployer emptyWorld).1 (by decide)
  have hid : (IsUp (scenarioHost [] scenarioPreview) scenarioDeployer
      emptyWorld).2.1.clusterResourceID = scenarioPredictedID := by decide
  obtain ⟨h1, h2⟩ := (Down_deletes (scenarioHost [] scenarioPreview) scenarioDeployer
    emptyWorld).2 (by decide)
  rw [hid] at h1 h2
  exact ⟨absent, h1, h2 (by decide)⟩

/-! ### Up -/

/-- What holds when `Up` returns nil: every step has succeeded, and the world has the new
directory, the credential file and the environment variable. -/
theorem Up_success (h : Host) (ad : aksDeployer) (w : World)
    (hup : (Up h ad w).1 = Outcome.ret none) :
    ∃ d first rest clusterName tmpdir,
      (h.run w (createCmd ad.ClusterOptions.ResourceGroup ad.ClusterOptions.Template)).err
        = none ∧
      h.jsonUnmarshal (h.run w (createCmd ad.ClusterOptions.ResourceGroup
        ad.ClusterOptions.Template)).stdout = .ok d ∧
      d.Properties.OutputResources = first :: rest ∧
      (Up h ad w).2.1.clusterResourceID = first.ID ∧
      parseClusterName first.ID = .ok clusterName ∧
      (h.run (w.record (createCmd ad.ClusterOptions.ResourceGroup ad.ClusterOptions.Template))
        (credentialsCmd ad.ClusterOptions.ResourceGroup clusterName)).err = none ∧
      h.tempDir ((w.record (createCmd ad.ClusterOptions.ResourceGroup
          ad.ClusterOptions.Template)).record
          (credentialsCmd ad.ClusterOptions.ResourceGroup clusterName))
        [] tempDirPattern = .ok tmpdir ∧
      (Up h ad w).2.2.dirs = w.dirs ++ [tmpdir] ∧
      (Up h ad w).2.2.env kubeconfigEnv = some (filepathJoin tmpdir
        (kubeconfigName ad.ClusterOptions.ResourceGroup clusterName)) ∧
      (Up h ad w).2.2.files (filepathJoin tmpdir
        (kubeconfigName ad.ClusterOptions.ResourceGroup clusterName))
        = some (h.run (w.record (createCmd ad.ClusterOptions.ResourceGroup
            ad.ClusterOptions.Template))
          (credentialsCmd ad.ClusterOptions.ResourceGroup clusterName)).stdout := by
  simp only [Up, ensureDeployment, parseResourceID, ensureKubeconfig,
    runWithErrorOutput_eq] at hup ⊢
  cases hc : (h.run w (createCmd ad.ClusterOptions.ResourceGroup
      ad.ClusterOptions.Template)).err with
  | some e => simp [hc] at hup
  | none =>
    simp only [hc] at hup ⊢
    cases hj : h.jsonUnmarshal (h.run w (createCmd ad.ClusterOptions.ResourceGroup
        ad.ClusterOptions.Template)).stdout with
    | error e => simp [hj] at hup
    | ok d =>
      simp only [hj] at hup ⊢
      cases ho : d.Properties.OutputResources with
      | nil => simp [ho] at hup
      | cons first rest =>
        simp only [ho] at hup ⊢
        cases hn : parseClusterName first.ID with
        | error e => simp [hn] at hup
        | ok clusterName =>
          simp only [hn] at hup ⊢
          cases hk : (h.run (w.record (createCmd ad.ClusterOptions.ResourceGroup
              ad.ClusterOptions.Template))
              (credentialsCmd ad.ClusterOptions.ResourceGroup clusterName)).err with
          | some e => simp [hk] at hup
          | none =>
            simp only [hk] at hup ⊢
            cases ht : h.tempDir ((w.record (createCmd ad.ClusterOptions.ResourceGroup
                ad.ClusterOptions.Template)).record
                (credentialsCmd ad.ClusterOptions.ResourceGroup clusterName))
                [] tempDirPattern with
            | error e => simp [ht] at hup
            | ok tmpdir =>
              simp only [ht] at hup ⊢
              cases hw : h.writeFile (((w.record (createCmd ad.ClusterOptions.ResourceGroup
                  ad.ClusterOptions.Template)).record
                  (credentialsCmd ad.ClusterOptions.ResourceGroup clusterName)).mkdir tmpdir)
                  (filepathJoin tmpdir
                    (kubeconfigName ad.ClusterOptions.ResourceGroup clusterName))
                  (h.run (w.record (createCmd ad.ClusterOptions.ResourceGroup
                    ad.ClusterOptions.Template))
                    (credentialsCmd ad.ClusterOptions.ResourceGroup clusterName)).stdout with
              | some e => simp [hw] at hup
              | none =>
                simp only [hw] at hup ⊢
                cases hs : h.setenv ((((w.record (createCmd ad.ClusterOptions.ResourceGroup
                    ad.ClusterOptions.Template)).record
                    (credentialsCmd ad.ClusterOptions.ResourceGroup clusterName)).mkdir
                    tmpdir).write
                    (filepathJoin tmpdir
                      (kubeconfigName ad.ClusterOptions.ResourceGroup clusterName))
                    (h.run (w.record (createCmd ad.ClusterOptions.ResourceGroup
                      ad.ClusterOptions.Template))
                      (credentialsCmd ad.ClusterOptions.ResourceGroup clusterName)).stdout)
                    kubeconfigEnv
                    (filepathJoin tmpdir
                      (kubeconfigName ad.ClusterOptions.ResourceGroup clusterName)) with
                | some e => simp [hs] at hup
                | none =>
                  simp only [hs]
                  refine ⟨d, first, rest, clusterName, tmpdir, trivial, rfl, ho, rfl, hn, hk,
                    ht, ?_, ?_, ?_⟩
                  · simp [World.setenv, World.write, World.mkdir, World.record]
                  · simp [World.setenv, World.write, World.mkdir, World.record]
                  · simp [World.setenv, World.write, World.mkdir, World.record]

/-! ### The path of the credential file -/

theorem bytesSplit_ne_nil (sep : Char) : ∀ s, bytesSplit sep s ≠ [] := by
  intro s
  induction s with
  | nil => simp [bytesSplit]
  | cons c cs ih =>
    unfold bytesSplit
    by_cases hc : c = sep
    · simp [hc]
    · simp only [hc, if_false]
      cases h : bytesSplit sep cs with
      | nil => exact absurd h ih
      | cons l ls => simp

theorem bytesSplit_no_sep (sep : Char) : ∀ s, sep ∉ s → bytesSplit sep s = [s] := by
  intro s
  induction s with
  | nil => intro _; rfl
  | cons c cs ih =>
    intro h
    have hc : c ≠ sep := fun h0 => h (h0 ▸ List.mem_cons_self _ _)
    have hcs : sep ∉ cs := fun h0 => h (List.mem_cons_of_mem _ h0)
    simp [bytesSplit, hc, ih hcs]

theorem bytesSplit_append (sep : Char) (b : Str) :
    ∀ a, bytesSplit sep (a ++ sep :: b) = bytesSplit sep a ++ bytesSplit sep b := by
  intro a
  induction a with
  | nil => simp [bytesSplit]
  | cons c cs ih =>
    by_cases hc : c = sep
    · simp [bytesSplit, hc, ih]
    · cases h : bytesSplit sep cs with
      | nil => exact absurd h (bytesSplit_ne_nil sep cs)
      | cons l ls =>
        have e1 : bytesSplit sep (c :: (cs ++ sep :: b)) =
            match bytesSplit sep (cs ++ sep :: b) with
            | l :: ls => (c :: l) :: ls
            | [] => [[c]] := by
          simp [bytesSplit, hc]
        have e2 : bytesSplit sep (c :: cs) =
            match bytesSplit sep cs with
            | l :: ls => (c :: l) :: ls
            | [] => [[c]] := by
          simp [bytesSplit, hc]
        rw [List.cons_append, e1, e2, ih, h]
        rfl

theorem bytesSplit_no_sep_mem (sep : Char) : ∀ s, ∀ l ∈ bytesSplit sep s, sep ∉ l := by
  intro s
  induction s with
  | nil => intro l hl; simp [bytesSplit] at hl; simp [hl]
  | cons c cs ih =>
    intro l hl
    by_cases hc : c = sep
    · simp only [bytesSplit, hc, if_true, List.mem_cons] at hl
      rcases hl with h1 | h1
      · simp [h1]
      · exact ih l h1
    · cases h : bytesSplit sep cs with
      | nil => exact absurd h (bytesSplit_ne_nil sep cs)
      | cons l1 ls =>
        simp only [bytesSplit, hc, if_false, h, List.mem_cons] at hl
        rcases hl with h1 | h1
        · rw [h1]
          intro h0
          rcases List.mem_cons.mp h0 with h2 | h2
          · exact hc h2.symm
          · exact ih l1 (by rw [h]; exact List.mem_cons_self _ _) h2
        · exact ih l (by rw [h]; exact List.mem_cons_of_mem _ h1)

theorem cleanStep_inv (rooted : Bool) (stack : List Str) (c : Str) (hcs : '/' ∉ c)
    (h : ∀ e ∈ stack, e ≠ [] ∧ e ≠ ['.'] ∧ '/' ∉ e) :
    ∀ e ∈ cleanStep rooted stack c, e ≠ [] ∧ e ≠ ['.'] ∧ '/' ∉ e := by
  unfold cleanStep
  by_cases h1 : c = [] ∨ c = ['.']
  · simpa [h1] using h
  · have hc : c ≠ [] ∧ c ≠ ['.'] ∧ '/' ∉ c := by
      refine ⟨?_, ?_, hcs⟩
      · exact fun h0 => h1 (Or.inl h0)
      · exact fun h0 => h1 (Or.inr h0)
    have hpush : ∀ e ∈ stack ++ [c], e ≠ [] ∧ e ≠ ['.'] ∧ '/' ∉ e := by
      intro e he
      rcases List.mem_append.mp he with h2 | h2
      · exact h e h2
      · simp at h2; rw [h2]; exact hc
    have hpop : ∀ e ∈ stack.dropLast, e ≠ [] ∧ e ≠ ['.'] ∧ '/' ∉ e :=
      fun e he => h e (List.dropLast_subset _ he)
    simp only [h1, if_false]
    by_cases h2 : c = ['.', '.']
    · simp only [h2, if_true]
      cases stack.getLast? with
      | none =>
        by_cases hr : rooted = true
        · simpa [hr] using h
        · simpa [hr, h2] using hpush
      | some top =>
        by_cases ht : top = ['.', '.']
        · simpa [ht, h2] using hpush
        · simpa [ht] using hpop
    · simpa [h2] using hpush

theorem foldl_cleanStep_inv (rooted : Bool) :
    ∀ (cs : List Str) (stack : List Str), (∀ c ∈ cs, '/' ∉ c) →
      (∀ e ∈ stack, e ≠ [] ∧ e ≠ ['.'] ∧ '/' ∉ e) →
      ∀ e ∈ cs.foldl (cleanStep rooted) stack, e ≠ [] ∧ e ≠ ['.'] ∧ '/' ∉ e := by
  intro cs
  induction cs with
  | nil => intro stack _ h; simpa using h
  | cons c cs ih =>
    intro stack hcs h
    simp only [List.foldl_cons]
    exact ih _ (fun c1 h1 => hcs c1 (List.mem_cons_of_mem _ h1))
      (cleanStep_inv rooted stack c (hcs c (List.mem_cons_self _ _)) h)

theorem joinSlash_append (name : Str) :
    ∀ (es : List Str), es ≠ [] → joinSlash (es ++ [name]) = joinSlash es ++ '/' :: name := by
  intro es
  induction es with
  | nil => intro h; exact absurd rfl h
  | cons e es ih =>
    intro _
    cases es with
    | nil => simp [joinSlash]
    | cons e1 es1 =>
      have := ih (by simp)
      simp only [List.cons_append] at this ⊢
      simp [joinSlash, this]

/-- Joining a directory with a single ordinary element puts that element directly under the
cleaned directory. -/
theorem filepathJoin_single (dir name : Str) (hsl : '/' ∉ name) (hne : name ≠ [])
    (hdot : name ≠ ['.']) (hdd : name ≠ ['.', '.']) :
    filepathJoin dir name =
      if filepathClean dir = ['/'] then '/' :: name
      else if filepathClean dir = ['.'] then name
      else filepathClean dir ++ '/' :: name := by
  have hstep : ∀ r stack, cleanStep r stack name = stack ++ [name] := by
    intro r stack
    simp [cleanStep, hne, hdot, hdd]
  have hhead : name.head? ≠ some '/' := by
    cases name with
    | nil => exact absurd rfl hne
    | cons c cs =>
      intro h0
      simp at h0
      exact hsl (h0 ▸ List.mem_cons_self _ _)
  by_cases hdir : dir = []
  · subst hdir
    have h1 : filepathClean name = name := by
      simp [filepathClean, cleanElems, bytesSplit_no_sep '/' name hsl, hstep, hhead, joinSlash]
    have h2 : filepathClean [] = ['.'] := by decide
    simp [filepathJoin, hne, h1, h2]
  · have hroot : (dir ++ '/' :: name).head? = dir.head? := by
      cases dir with
      | nil => exact absurd rfl hdir
      | cons c cs => rfl
    have helems : cleanElems (dir ++ '/' :: name) = cleanElems dir ++ [name] := by
      simp only [cleanElems, hroot, bytesSplit_append, bytesSplit_no_sep '/' name hsl,
        List.foldl_append, List.foldl_cons, List.foldl_nil, hstep]
    have hinv : ∀ e ∈ cleanElems dir, e ≠ [] ∧ e ≠ ['.'] ∧ '/' ∉ e :=
      foldl_cleanStep_inv _ _ [] (bytesSplit_no_sep_mem '/' dir) (by simp)
    simp only [filepathJoin, hdir, ne_eq, not_false_eq_true, if_true]
    cases hes : cleanElems dir with
    | nil =>
      by_cases hr : dir.head? = some '/'
      · simp [filepathClean, helems, hes, hroot, hr, joinSlash]
      · simp [filepathClean, helems, hes, hroot, hr, joinSlash]
    | cons e es =>
      have he := hinv e (by rw [hes]; exact List.mem_cons_self _ _)
      have hjoin := joinSlash_append name (e :: es) (by simp)
      rw [List.cons_append] at hjoin
      have hne1 : joinSlash (e :: es) ≠ [] := by
        cases es with
        | nil => simpa [joinSlash] using he.1
        | cons e1 es1 => simp [joinSlash]
      have hnd : joinSlash (e :: es) ≠ ['.'] := by
        cases es with
        | nil => simpa [joinSlash] using he.2.1
        | cons e1 es1 =>
          intro h0
          have h1 := congrArg List.length h0
          simp [joinSlash] at h1
          have : 0 < e.length := List.length_pos.mpr he.1
          omega
      by_cases hr : dir.head? = some '/'
      · simp [filepathClean, helems, hes, hroot, hr, hjoin, hne1]
      · have hns : joinSlash (e :: es) ≠ ['/'] := by
          intro h0
          cases es with
          | nil =>
            simp only [joinSlash] at h0
            exact he.2.2 (h0 ▸ List.mem_cons_self _ _)
          | cons e1 es1 =>
            have h1 := congrArg List.length h0
            simp [joinSlash] at h1
            have : 0 < e.length := List.length_pos.mpr he.1
            omega
        simp [filepathClean, helems, hes, hroot, hr, hjoin, hnd, hns]

theorem kubeconfigName_single (group clusterName : Str) (hg : '/' ∉ group)
    (hc : '/' ∉ clusterName) :
    '/' ∉ kubeconfigName group clusterName ∧ kubeconfigName group clusterName ≠ [] ∧
    kubeconfigName group clusterName ≠ ['.'] ∧
    kubeconfigName group clusterName ≠ ['.', '.'] := by
  have hk : '/' ∉ "kubeconfig-".toList := by decide
  have hd : '/' ∉ "-".toList := by decide
  refine ⟨?_, ?_, ?_, ?_⟩
  · unfold kubeconfigName
    intro h0
    simp only [List.mem_append] at h0
    rcases h0 with ((h1 | h1) | h1) | h1
    · exact hk h1
    · exact hg h1
    · exact hd h1
    · exact hc h1
  · simp [kubeconfigName]
  · simp [kubeconfigName]
  · simp [kubeconfigName]

/-- C6 (as stated, refuted): the deployment reports a cluster identifier whose last segment
is `a/../../y`; `parseClusterName` returns that segment, `Up` returns nil, and `KUBECONFIG`
is `/tmp/y`, outside the temporary directory `/tmp/kubetest2-aks123456` made by the call and
not named `kubeconfig-rg1-...`. -/
theorem Up_kubeconfig_outside :
    (Up (scenarioHost traversalDeployment []) scenarioDeployer emptyWorld).1
      = Outcome.ret none ∧
    (Up (scenarioHost traversalDeployment []) scenarioDeployer emptyWorld).2.1.clusterResourceID
      = traversalID ∧
    parseClusterName traversalID = .ok "a/../../y".toList ∧
    (Up (scenarioHost traversalDeployment []) scenarioDeployer emptyWorld).2.2.dirs
      = ["/tmp/kubetest2-aks123456".toList] ∧
    (Up (scenarioHost traversalDeployment []) scenarioDeployer emptyWorld).2.2.env
      "KUBECONFIG".toList = some "/tmp/y".toList ∧
    (Up (scenarioHost traversalDeployment []) scenarioDeployer emptyWorld).2.2.files
      "/tmp/y".toList = some "KBYTES".toList := by
  decide

/-- C6 (amended): whenever `Up` returns nil and neither the resource group of the driver nor
the cluster name that `parseClusterName` derives from `clusterResourceID` contains `/`,
`clusterResourceID` is the `id` of the first output resource of the deployment, and
`KUBECONFIG` names the file `kubeconfig-<resource group>-<cluster name>` directly under the
temporary directory made by that call (its cleaned path, `/`, and the name), whose content
is the standard output of the credentials fetch run with that resource group and that
cluster name. -/
theorem Up_kubeconfig (h : Host) (ad : aksDeployer) (w : World) (clusterName : Str)
    (hup : (Up h ad w).1 = Outcome.ret none)
    (hname : parseClusterName (Up h ad w).2.1.clusterResourceID = .ok clusterName)
    (hrg : '/' ∉ ad.ClusterOptions.ResourceGroup) (hcn : '/' ∉ clusterName) :
    ∃ d first rest tmpdir path,
      (h.run w (createCmd ad.ClusterOptions.ResourceGroup ad.ClusterOptions.Template)).err
        = none ∧
      h.jsonUnmarshal (h.run w (createCmd ad.ClusterOptions.ResourceGroup
        ad.ClusterOptions.Template)).stdout = .ok d ∧
      d.Properties.OutputResources = first :: rest ∧
      (Up h ad w).2.1.clusterResourceID = first.ID ∧
      (h.run (w.record (createCmd ad.ClusterOptions.ResourceGroup ad.ClusterOptions.Template))
        (credentialsCmd ad.ClusterOptions.ResourceGroup clusterName)).err = none ∧
      h.tempDir ((w.record (createCmd ad.ClusterOptions.ResourceGroup
          ad.ClusterOptions.Template)).record
          (credentialsCmd ad.ClusterOptions.ResourceGroup clusterName))
        [] "kubetest2-aks".toList = .ok tmpdir ∧
      (Up h ad w).2.2.dirs = w.dirs ++ [tmpdir] ∧
      path =
        (if filepathClean tmpdir = ['/'] then
          '/' :: ("kubeconfig-".toList ++ ad.ClusterOptions.ResourceGroup ++ "-".toList
            ++ clusterName)
        else if filepathClean tmpdir = ['.'] then
          "kubeconfig-".toList ++ ad.ClusterOptions.ResourceGroup ++ "-".toList ++ clusterName
        else
          filepathClean tmpdir ++ '/' :: ("kubeconfig-".toList
            ++ ad.ClusterOptions.ResourceGroup ++ "-".toList ++ clusterName)) ∧
      (Up h ad w).2.2.env "KUBECONFIG".toList = some path ∧
      (Up h ad w).2.2.files path
        = some (h.run (w.record (createCmd ad.ClusterOptions.ResourceGroup
            ad.ClusterOptions.Template))
          (credentialsCmd ad.ClusterOptions.ResourceGroup clusterName)).stdout := by
  obtain ⟨d, first, rest, name1, tmpdir, h1, h2, h3, h4, h5, h6, h7, h8, h9, h10⟩ :=
    Up_success h ad w hup
  have hsame : name1 = clusterName := by
    rw [h4, h5] at hname
    exact Except.ok.inj hname
  subst hsame
  obtain ⟨n1, n2, n3, n4⟩ := kubeconfigName_single ad.ClusterOptions.ResourceGroup name1 hrg hcn
  have hjoin := filepathJoin_single tmpdir
    (kubeconfigName ad.ClusterOptions.ResourceGroup name1) n1 n2 n3 n4
  exact ⟨d, first, rest, tmpdir,
    filepathJoin tmpdir (kubeconfigName ad.ClusterOptions.ResourceGroup name1),
    h1, h2, h3, h4, h6, h7, h8, hjoin, h9, h10⟩

/-- Witness of `Up_kubeconfig`: scenario S1. -/
theorem Up_kubeconfig_witness :
    (Up (scenarioHost scenarioDeployment []) scenarioDeployer emptyWorld).1 = Outcome.ret none ∧
    (Up (scenarioHost scenarioDeployment []) scenarioDeployer emptyWorld).2.2.env
      "KUBECONFIG".toList = some "/tmp/kubetest2-aks123456/kubeconfig-rg1-c1".toList ∧
    (Up (scenarioHost scenarioDeployment []) scenarioDeployer emptyWorld).2.2.files
      "/tmp/kubetest2-aks123456/kubeconfig-rg1-c1".toList = some "KBYTES".toList := by
  have hup : (Up (scenarioHost scenarioDeployment []) scenarioDeployer emptyWorld).1
      = Outcome.ret none := by decide
  obtain ⟨d, first, rest, tmpdir, path, _, _, _, _, _, htmp, _, hpath, henv, hfiles⟩ :=
    Up_kubeconfig (scenarioHost scenarioDeployment []) scenarioDeployer emptyWorld
      "c1".toList hup (by decide) (by decide) (by decide)
  have ht : "/tmp/kubetest2-aks123456".toList = tmpdir := Except.ok.inj htmp
  subst ht
  have hp : path = "/tmp/kubetest2-aks123456/kubeconfig-rg1-c1".toList := by
    rw [hpath]; decide
  subst hp
  exact ⟨hup, henv, by rw [hfiles]; decide⟩

/-- C8 (as stated, refuted): when the deployment submission prints nothing, `json.Unmarshal`
fails and `Up` returns that very error, which wraps nothing and carries no prefix. -/
theorem Up_returns_decode_error_unwrapped :
    (scenarioHost [] []).jsonUnmarshal [] =
      .error (.errorString "unexpected end of JSON input".toList) ∧
    (Up (scenarioHost [] []) scenarioDeployer emptyWorld).1 =
      Outcome.ret (some (.errorString "unexpected end of JSON input".toList)) ∧
    (GoError.errorString "unexpected end of JSON input".toList).Unwrap = none := by
  decide

/-- C8 (amended): every non-nil error returned by `IsUp` or `Down`, and every error returned
by `Up` that originates in an external command failure, is the error of the process runner
(the captured standard error, ` : `, and the cause) wrapped with a non-empty prefix naming
the operation; an error of the JSON decoding in `parseResourceID`, of `parseClusterName`, of
the temporary-directory creation, of the credential-file write or of setting `KUBECONFIG` is
returned by `Up` as it is. -/
theorem verb_errors (h : Host) (ad : aksDeployer) (w : World) :
    (∀ e, (IsUp h ad w).1.2 = some e →
      ∃ cause,
        (h.run w (whatIfCmd ad.ClusterOptions.ResourceGroup ad.ClusterOptions.Template)).err
          = some cause ∧
        e = wrapf
          ("Failed to query deployment [".toList ++ ad.ClusterOptions.Template ++ "]: ".toList)
          (wrapf ((h.run w (whatIfCmd ad.ClusterOptions.ResourceGroup
            ad.ClusterOptions.Template)).stderr ++ " : ".toList) cause)) ∧
    (∀ e, (Down h ad w).1 = some e →
      (∃ inner, (IsUp h ad w).1.2 = some inner ∧
        e = wrapf "failed to get cluster state: ".toList inner) ∨
      (∃ cause,
        (h.run (IsUp h ad w).2.2 (deleteCmd (IsUp h ad w).2.1.clusterResourceID)).err
          = some cause ∧
        e = wrapf "failed to delete resource: ".toList
          (wrapf ((h.run (IsUp h ad w).2.2
            (deleteCmd (IsUp h ad w).2.1.clusterResourceID)).stderr ++ " : ".toList) cause))) ∧
    (∀ e, (Up h ad w).1 = Outcome.ret (some e) →
      (∃ cause,
        (h.run w (createCmd ad.ClusterOptions.ResourceGroup ad.ClusterOptions.Template)).err
          = some cause ∧
        e = wrapf
          ("Failed to create deployment [".toList ++ ad.ClusterOptions.Template
            ++ "]: ".toList)
          (wrapf ((h.run w (createCmd ad.ClusterOptions.ResourceGroup
            ad.ClusterOptions.Template)).stderr ++ " : ".toList) cause)) ∨
      (∃ name cause,
        (h.run (w.record (createCmd ad.ClusterOptions.ResourceGroup
          ad.ClusterOptions.Template))
          (credentialsCmd ad.ClusterOptions.ResourceGroup name)).err = some cause ∧
        e = wrapf "Failed to get kubeconfig: ".toList
          (wrapf ((h.run (w.record (createCmd ad.ClusterOptions.ResourceGroup
            ad.ClusterOptions.Template))
            (credentialsCmd ad.ClusterOptions.ResourceGroup name)).stderr ++ " : ".toList)
            cause)) ∨
      h.jsonUnmarshal (h.run w (createCmd ad.ClusterOptions.ResourceGroup
        ad.ClusterOptions.Template)).stdout = .error e ∨
      parseClusterName (Up h ad w).2.1.clusterResourceID = .error e ∨
      (∃ w1, h.tempDir w1 [] tempDirPattern = .error e) ∨
      (∃ w1 name data, h.writeFile w1 name data = some e) ∨
      (∃ w1 name, h.setenv w1 kubeconfigEnv name = some e)) := by
  refine ⟨?_, ?_, ?_⟩
  · intro e he
    rw [IsUp_eq] at he
    cases hd : (h.run w (whatIfCmd ad.ClusterOptions.ResourceGroup
        ad.ClusterOptions.Template)).err with
    | some cause =>
      simp only [hd] at he
      exact ⟨cause, rfl, by simpa using he.symm⟩
    | none =>
      simp only [hd] at he
      cases hp : parseWhatIf (h.run w (whatIfCmd ad.ClusterOptions.ResourceGroup
          ad.ClusterOptions.Template)).stdout with
      | error e1 => simp [hp] at he
      | ok id =>
        simp only [hp] at he
        cases hs : (h.run (w.record (whatIfCmd ad.ClusterOptions.ResourceGroup
            ad.ClusterOptions.Template)) (showCmd id)).err with
        | some e1 => simp [hs] at he
        | none => simp [hs] at he
  · intro e he
    unfold Down deleteResource at he
    rcases hu : IsUp h ad w with ⟨⟨up, err⟩, ad1, w1⟩
    rw [hu] at he
    cases err with
    | some inner =>
      left
      exact ⟨inner, rfl, by simpa using he.symm⟩
    | none =>
      cases up with
      | false => simp at he
      | true =>
        right
        simp only [runWithErrorOutput_eq] at he
        cases hdel : (h.run w1 (deleteCmd ad1.clusterResourceID)).err with
        | some cause =>
          simp only [hdel] at he
          exact ⟨cause, rfl, by simpa using he.symm⟩
        | none => simp [hdel] at he
  · intro e he
    simp only [Up, ensureDeployment, parseResourceID, ensureKubeconfig,
      runWithErrorOutput_eq] at he ⊢
    cases hc : (h.run w (createCmd ad.ClusterOptions.ResourceGroup
        ad.ClusterOptions.Template)).err with
    | some cause =>
      simp only [hc] at he
      exact Or.inl ⟨cause, rfl, by simpa using he.symm⟩
    | none =>
      simp only [hc] at he ⊢
      cases hj : h.jsonUnmarshal (h.run w (createCmd ad.ClusterOptions.ResourceGroup
          ad.ClusterOptions.Template)).stdout with
      | error e1 =>
        simp only [hj] at he
        have hee : e1 = e := by simpa using he
        subst hee
        exact Or.inr (Or.inr (Or.inl rfl))
      | ok d =>
        simp only [hj] at he ⊢
        cases ho : d.Properties.OutputResources with
        | nil => simp [ho] at he
        | cons first rest =>
          simp only [ho] at he ⊢
          cases hn : parseClusterName first.ID with
          | error e1 =>
            simp only [hn] at he ⊢
            have hee : e1 = e := by simpa using he
            subst hee
            exact Or.inr (Or.inr (Or.inr (Or.inl rfl)))
          | ok clusterName =>
            simp only [hn] at he ⊢
            cases hk : (h.run (w.record (createCmd ad.ClusterOptions.ResourceGroup
                ad.ClusterOptions.Template))
                (credentialsCmd ad.ClusterOptions.ResourceGroup clusterName)).err with
            | some cause =>
              simp only [hk] at he
              exact Or.inr (Or.inl ⟨clusterName, cause, hk, by simpa using he.symm⟩)
            | none =>
              simp only [hk] at he ⊢
              cases ht : h.tempDir ((w.record (createCmd ad.ClusterOptions.ResourceGroup
                  ad.ClusterOptions.Template)).record
                  (credentialsCmd ad.ClusterOptions.ResourceGroup clusterName))
                  [] tempDirPattern with
              | error e1 =>
                simp only [ht] at he
                have hee : e1 = e := by simpa using he
                subst hee
                exact Or.inr (Or.inr (Or.inr (Or.inr (Or.inl ⟨_, ht⟩))))
              | ok tmpdir =>
                simp only [ht] at he ⊢
                cases hw : h.writeFile (((w.record (createCmd ad.ClusterOptions.ResourceGroup
                    ad.ClusterOptions.Template)).record
                    (credentialsCmd ad.ClusterOptions.ResourceGroup clusterName)).mkdir tmpdir)
                    (filepathJoin tmpdir
                      (kubeconfigName ad.ClusterOptions.ResourceGroup clusterName))
                    (h.run (w.record (createCmd ad.ClusterOptions.ResourceGroup
                      ad.ClusterOptions.Template))
                      (credentialsCmd ad.ClusterOptions.ResourceGroup clusterName)).stdout with
                | some e1 =>
                  simp only [hw] at he
                  have hee : e1 = e := by simpa using he
                  subst hee
                  exact Or.inr (Or.inr (Or.inr (Or.inr (Or.inr (Or.inl ⟨_, _, _, hw⟩)))))
                | none =>
                  simp only [hw] at he ⊢
                  cases hs : h.setenv ((((w.record (createCmd ad.ClusterOptions.ResourceGroup
                      ad.ClusterOptions.Template)).record
                      (credentialsCmd ad.ClusterOptions.ResourceGroup clusterName)).mkdir
                      tmpdir).write
                      (filepathJoin tmpdir
                        (kubeconfigName ad.ClusterOptions.ResourceGroup clusterName))
                      (h.run (w.record (createCmd ad.ClusterOptions.ResourceGroup
                        ad.ClusterOptions.Template))
                        (credentialsCmd ad.ClusterOptions.ResourceGroup clusterName)).stdout)
                      kubeconfigEnv
                      (filepathJoin tmpdir
                        (kubeconfigName ad.ClusterOptions.ResourceGroup clusterName)) with
                  | some e1 =>
                    simp only [hs] at he
                    have hee : e1 = e := by simpa using he
                    subst hee
                    exact Or.inr (Or.inr (Or.inr (Or.inr (Or.inr (Or.inr ⟨_, _, hs⟩)))))
                  | none => simp [hs] at he

/-- Witness of `verb_errors`: on a host whose tool fails, `IsUp` returns the runner's error
wrapped with the prefix naming the query. -/
theorem verb_errors_witness :
    (IsUp failingHost scenarioDeployer emptyWorld).1.2 = some
      (wrapf "Failed to query deployment [/tmp/t.json]: ".toList
        (wrapf "ERROR: Please run az login to setup account. : ".toList
          (.errorString "exit status 1".toList))) ∧
    ∃ cause,
      (failingHost.run emptyWorld (whatIfCmd scenarioDeployer.ClusterOptions.ResourceGroup
        scenarioDeployer.ClusterOptions.Template)).err = some cause ∧
      wrapf "Failed to query deployment [/tmp/t.json]: ".toList
        (wrapf "ERROR: Please run az login to setup account. : ".toList
          (.errorString "exit status 1".toList)) =
      wrapf ("Failed to query deployment [".toList
          ++ scenarioDeployer.ClusterOptions.Template ++ "]: ".toList)
        (wrapf ((failingHost.run emptyWorld
          (whatIfCmd scenarioDeployer.ClusterOptions.ResourceGroup
            scenarioDeployer.ClusterOptions.Template)).stderr ++ " : ".toList) cause) :=
  ⟨by decide, (verb_errors failingHost scenarioDeployer emptyWorld).1 _ (by decide)⟩

/-! ### parseWhatIf -/

theorem parseWhatIfLoop_cons (line : Str) (lines : List Str) (scope : Str) :
    parseWhatIfLoop (line :: lines) scope =
      if (scopeMatch line).length = 2 then parseWhatIfLoop lines ((scopeMatch line).getD 1 [])
      else if (clusterMatch line).length = 2 then
        .ok (scope ++ "/Microsoft.ContainerService/managedClusters/".toList
          ++ (clusterMatch line).getD 1 [])
      else parseWhatIfLoop lines scope := rfl

/-- Lines on which the loop does not return are passed over, possibly changing the scope. -/
theorem parseWhatIfLoop_pass (rest : List Str) :
    ∀ (pre : List Str) (scope : Str),
      (∀ l ∈ pre, (scopeMatch l).length = 2 ∨ (clusterMatch l).length ≠ 2) →
      ∃ scope1, parseWhatIfLoop (pre ++ rest) scope = parseWhatIfLoop rest scope1 := by
  intro pre
  induction pre with
  | nil => intro scope _; exact ⟨scope, rfl⟩
  | cons l pre ih =>
    intro scope hpre
    have hl := hpre l (List.mem_cons_self _ _)
    have hrest : ∀ l1 ∈ pre, (scopeMatch l1).length = 2 ∨ (clusterMatch l1).length ≠ 2 :=
      fun l1 h1 => hpre l1 (List.mem_cons_of_mem _ h1)
    rw [List.cons_append, parseWhatIfLoop_cons]
    by_cases hs : (scopeMatch l).length = 2
    · rw [if_pos hs]; exact ih _ hrest
    · rw [if_neg hs]
      have hc : ¬ (clusterMatch l).length = 2 := by
        rcases hl with h1 | h1
        · exact absurd h1 hs
        · exact h1
      rw [if_neg hc]; exact ih _ hrest

/-- Lines matching neither pattern are passed over and leave the scope as it is. -/
theorem parseWhatIfLoop_skip (rest : List Str) (scope : Str) :
    ∀ (mid : List Str),
      (∀ l ∈ mid, (scopeMatch l).length ≠ 2 ∧ (clusterMatch l).length ≠ 2) →
      parseWhatIfLoop (mid ++ rest) scope = parseWhatIfLoop rest scope := by
  intro mid
  induction mid with
  | nil => intro _; rfl
  | cons l mid ih =>
    intro hmid
    have hl := hmid l (List.mem_cons_self _ _)
    rw [List.cons_append, parseWhatIfLoop_cons, if_neg hl.1, if_neg hl.2]
    exact ih (fun l1 h1 => hmid l1 (List.mem_cons_of_mem _ h1))

/-- C3 (as stated, refuted): in `Scope: A`, `Scope: B`, `+ ...managedClusters/N` the first
line matches the scope pattern with `A` and precedes the managed-cluster line, yet the result
is built from `B`; and a line that contains both patterns counts as a scope line, so that
no identifier is found. -/
theorem parseWhatIf_not_any_scope :
    bytesSplit '\n'
        "Scope: A\nScope: B\n+ Microsoft.ContainerService/managedClusters/N".toList
      = ["Scope: A".toList, "Scope: B".toList,
          "+ Microsoft.ContainerService/managedClusters/N".toList] ∧
    scopeMatch "Scope: A".toList = ["Scope: A".toList, "A".toList] ∧
    clusterMatch "+ Microsoft.ContainerService/managedClusters/N".toList
      = ["+ Microsoft.ContainerService/managedClusters/N".toList, "N".toList] ∧
    parseWhatIf "Scope: A\nScope: B\n+ Microsoft.ContainerService/managedClusters/N".toList
      = .ok "B/Microsoft.ContainerService/managedClusters/N".toList ∧
    parseWhatIf "Scope: A\nScope: B\n+ Microsoft.ContainerService/managedClusters/N".toList
      ≠ .ok ("A".toList ++ "/Microsoft.ContainerService/managedClusters/".toList
          ++ "N".toList) ∧
    scopeMatch "Scope: A".toList = ["Scope: A".toList, "A".toList] ∧
    clusterMatch "+ Microsoft.ContainerService/managedClusters/N (Scope: x)".toList
      = ["+ Microsoft.ContainerService/managedClusters/N (Scope: x)".toList,
          "N (Scope: x)".toList] ∧
    parseWhatIf
        "Scope: A\n+ Microsoft.ContainerService/managedClusters/N (Scope: x)".toList
      = .error (.errorString "resourceID not found".toList) := by
  decide

/-- C3 (amended): if the lines of the input are `pre`, a line matching the scope pattern with
capture `S`, lines `mid` matching neither pattern, a line matching the managed-cluster
pattern with capture `N` and not the scope pattern, and then anything, where no line of `pre`
matches the managed-cluster pattern without matching the scope pattern, then `parseWhatIf`
succeeds and returns `S + "/Microsoft.ContainerService/managedClusters/" + N`. -/
theorem parseWhatIf_running_scope (output : Str) (pre mid post : List Str)
    (scopeLine clusterLine whole1 whole2 S N : Str)
    (hsplit : bytesSplit '\n' output = pre ++ scopeLine :: (mid ++ clusterLine :: post))
    (hpre : ∀ l ∈ pre, (scopeMatch l).length = 2 ∨ (clusterMatch l).length ≠ 2)
    (hscope : scopeMatch scopeLine = [whole1, S])
    (hmid : ∀ l ∈ mid, (scopeMatch l).length ≠ 2 ∧ (clusterMatch l).length ≠ 2)
    (hnot : (scopeMatch clusterLine).length ≠ 2)
    (hcluster : clusterMatch clusterLine = [whole2, N]) :
    parseWhatIf output =
      .ok (S ++ "/Microsoft.ContainerService/managedClusters/".toList ++ N) := by
  unfold parseWhatIf
  rw [hsplit]
  obtain ⟨scope1, h1⟩ := parseWhatIfLoop_pass (scopeLine :: (mid ++ clusterLine :: post)) pre []
    hpre
  rw [h1, parseWhatIfLoop_cons, hscope]
  simp only [List.length_cons, List.length_nil, if_true]
  rw [parseWhatIfLoop_skip _ _ mid hmid, parseWhatIfLoop_cons, if_neg hnot, hcluster]
  simp

/-- Witness of `parseWhatIf_running_scope`: the preview of scenario S2. -/
theorem parseWhatIf_running_scope_witness :
    parseWhatIf scenarioPreview = .ok scenarioPredictedID :=
  parseWhatIf_running_scope scenarioPreview
    ["Resource changes: 1 to create.".toList, []] [[]] [[]]
    "Scope: /subscriptions/S/resourceGroups/rg1".toList
    "  + Microsoft.ContainerService/managedClusters/c1".toList
    "Scope: /subscriptions/S/resourceGroups/rg1".toList
    "+ Microsoft.ContainerService/managedClusters/c1".toList
    "/subscriptions/S/resourceGroups/rg1".toList "c1".toList
    (by decide) (by decide) (by decide) (by decide) (by decide) (by decide)

/-- C10 (code defect): on the preview `Scope: /subscriptions/S/resourceGroups/rg1`,
`+ Microsoft.ContainerService/managedClusters/c1` the identifier `parseWhatIf` predicts has no
`/providers` segment, and `parseClusterName` rejects it. -/
theorem predicted_id_rejected :
    parseWhatIf ("Scope: /subscriptions/S/resourceGroups/rg1\n"
        ++ "+ Microsoft.ContainerService/managedClusters/c1").toList
      = .ok "/subscriptions/S/resourceGroups/rg1/Microsoft.ContainerService/managedClusters/c1".toList ∧
    parseClusterName
        "/subscriptions/S/resourceGroups/rg1/Microsoft.ContainerService/managedClusters/c1".toList
      = .error (.errorString "invalid cluster resourceID".toList) ∧
    parseClusterName
        "/subscriptions/S/resourceGroups/rg1/providers/Microsoft.ContainerService/managedClusters/c1".toList
      = .ok "c1".toList := by
  decide

/-! ### Matching lemmas -/

theorem matchAt_single_cons (n : Node) (p : List Node) (hn : n.single = true) :
    matchAt (n :: p) = stepRune n.accepts (matchAt p) := by
  cases n <;> first | rfl | simp [Node.single] at hn

/-- A run of single-rune nodes consumes a text it accepts rune by rune. -/
theorem matchAt_accept_append (p : List Node) (s : List Char) :
    ∀ (nodes : List Node) (text : List Char),
      List.Forall₂ (fun n x => n.single = true ∧ n.accepts x = true) nodes text →
      matchAt (nodes ++ p) (text ++ s) =
        (matchAt p s).map (fun r => (r.1 + nodes.length, r.2)) := by
  intro nodes text hF
  induction hF with
  | nil => simp
  | @cons n x nodes text hnx _ ih =>
    rw [List.cons_append, List.cons_append, matchAt_single_cons n _ hnx.1]
    simp only [stepRune, hnx.2, if_true, ih, Option.map_map, List.length_cons]
    congr 1

/-- Conversely, a match of a run of single-rune nodes followed by `p` splits the text. -/
theorem matchAt_single_inv (p : List Node) :
    ∀ (nodes : List Node), (∀ n ∈ nodes, n.single = true) →
      ∀ (t : List Char) (r : Nat × List Str), matchAt (nodes ++ p) t = some r →
        ∃ text s r1, t = text ++ s ∧ List.Forall₂ (fun n x => n.accepts x = true) nodes text ∧
          matchAt p s = some r1 ∧ r.2 = r1.2 := by
  intro nodes
  induction nodes with
  | nil =>
    intro _ t r h
    exact ⟨[], t, r, rfl, List.Forall₂.nil, h, rfl⟩
  | cons n nodes ih =>
    intro hs t r h
    rw [List.cons_append, matchAt_single_cons n _ (hs n (List.mem_cons_self _ _))] at h
    cases t with
    | nil => simp [stepRune] at h
    | cons x t =>
      simp only [stepRune] at h
      by_cases hx : n.accepts x = true
      · simp only [hx, if_true, Option.map_eq_some'] at h
        obtain ⟨r0, h0, hr⟩ := h
        obtain ⟨text, s, r1, ht, hF, hp, h2⟩ :=
          ih (fun m hm => hs m (List.mem_cons_of_mem _ hm)) t r0 h0
        refine ⟨x :: text, s, r1, by rw [ht]; rfl, List.Forall₂.cons hx hF, hp, ?_⟩
        rw [← hr]; exact h2
      · simp [hx] at h

theorem capLoop_none (k : List Char → Option (Nat × List Str)) (s : List Char) :
    ∀ n, (∀ m, 1 ≤ m → m ≤ n → k (s.drop m) = none) → capLoop k s n = none := by
  intro n
  induction n with
  | zero => intro _; rfl
  | succ n ih =>
    intro h
    simp only [capLoop, h (n + 1) (by omega) (le_refl _)]
    exact ih (fun m h1 h2 => h m h1 (by omega))

theorem capLoop_some_inv (k : List Char → Option (Nat × List Str)) (s : List Char) :
    ∀ n r, capLoop k s n = some r →
      ∃ m r1, 1 ≤ m ∧ m ≤ n ∧ k (s.drop m) = some r1 ∧ r = (m + r1.1, s.take m :: r1.2) := by
  intro n
  induction n with
  | zero => intro r h; simp [capLoop] at h
  | succ n ih =>
    intro r h
    simp only [capLoop] at h
    cases hk : k (s.drop (n + 1)) with
    | some r1 =>
      simp only [hk, Option.some.injEq] at h
      exact ⟨n + 1, r1, by omega, le_refl _, hk, h.symm⟩
    | none =>
      simp only [hk] at h
      obtain ⟨m, r1, h1, h2, h3, h4⟩ := ih r h
      exact ⟨m, r1, h1, by omega, h3, h4⟩

theorem capLoop_first (k : List Char → Option (Nat × List Str)) (s : List Char)
    (m0 : Nat) (r1 : Nat × List Str) (hm0 : 1 ≤ m0) (hk : k (s.drop m0) = some r1) :
    ∀ n, m0 ≤ n → (∀ m, m0 < m → m ≤ n → k (s.drop m) = none) →
      capLoop k s n = some (m0 + r1.1, s.take m0 :: r1.2) := by
  intro n
  induction n with
  | zero => intro h; omega
  | succ n ih =>
    intro hle hnone
    by_cases heq : m0 = n + 1
    · subst heq
      simp only [capLoop, hk]
    · have hlt : m0 < n + 1 := by omega
      simp only [capLoop, hnone (n + 1) hlt (le_refl _)]
      exact ih (by omega) (fun m h1 h2 => hnone m h1 (by omega))

theorem dotRun_eq_length : ∀ (s : List Char), (∀ c ∈ s, c ≠ '\n') → dotRun s = s.length := by
  intro s
  induction s with
  | nil => intro _; rfl
  | cons c s ih =>
    intro h
    simp only [dotRun, h c (List.mem_cons_self _ _), if_false, List.length_cons]
    rw [ih (fun d hd => h d (List.mem_cons_of_mem _ hd))]

/-! ### parseClusterName -/

theorem clusterName_pattern :
    MustCompile
      "(?i)/subscriptions/(.+)/resourcegroups/(.+)/providers/Microsoft.ContainerService/managedClusters/(.+)$"
    = foldNodes "/subscriptions/" ++ Node.capDotPlus ::
        (foldNodes "/resourcegroups/" ++ Node.capDotPlus ::
          (foldNodes providerText ++ [Node.capDotPlus, Node.endText])) := by
  decide

theorem foldNodes_single (kw : String) : ∀ n ∈ foldNodes kw, n.single = true := by
  intro n hn
  simp only [foldNodes, List.mem_map] at hn
  obtain ⟨c, _, rfl⟩ := hn
  by_cases hc : c = '.' <;> simp [hc, Node.single]

theorem foldNodes_accept (kw : String) (text : Str) (h : CaseVariant kw text) :
    List.Forall₂ (fun n x => n.single = true ∧ n.accepts x = true) (foldNodes kw) text := by
  unfold foldNodes
  rw [List.forall₂_map_left_iff]
  refine List.Forall₂.imp ?_ h
  intro k x hkx
  by_cases hc : k = '.'
  · subst hc
    have hx : x = '.' := by
      rcases hkx with h1 | h1 <;> rw [h1] <;> decide
    subst hx
    decide
  · simp only [hc, if_false, Node.single, Node.accepts, foldOrbit, true_and,
      decide_eq_true_eq]
    rcases hkx with h1 | h1 <;> simp [h1]

theorem forall₂_mem_right {α β : Type} (R : α → β → Prop) (l1 : List α) (l2 : List β)
    (h : List.Forall₂ R l1 l2) : ∀ x ∈ l2, ∃ k ∈ l1, R k x := by
  induction h with
  | nil => intro x hx; simp at hx
  | @cons k y ks ys hky _ ih =>
    intro x hx
    rcases List.mem_cons.mp hx with h1 | h1
    · exact ⟨k, List.mem_cons_self _ _, h1 ▸ hky⟩
    · obtain ⟨k1, hk1, h2⟩ := ih x h1
      exact ⟨k1, List.mem_cons_of_mem _ hk1, h2⟩

/-- A match of the last part of the pattern has the rune `/` at offset 53. -/
theorem provider_slash (p : List Node) (t : List Char) (r : Nat × List Str)
    (h : matchAt (foldNodes providerText ++ p) t = some r) :
    t[53]? = some '/' := by
  obtain ⟨text, s, r1, ht, hF, _, _⟩ :=
    matchAt_single_inv p (foldNodes providerText) (foldNodes_single _) t r h
  have hlen : text.length = 54 := by
    rw [← hF.length_eq]; decide
  obtain ⟨_, hget⟩ := List.forall₂_iff_get.mp hF
  have h53 := hget 53 (by decide) (by omega)
  have hnode : (foldNodes providerText).get ⟨53, by decide⟩ = Node.litFold '/' := by decide
  rw [hnode] at h53
  have hx : text.get ⟨53, by omega⟩ = '/' := by
    simp only [Node.accepts, decide_eq_true_eq] at h53
    have horb : foldOrbit '/' = ['/', '/', '/'] := by decide
    rw [horb] at h53
    simpa using h53
  rw [ht, List.getElem?_append_left (by omega)]
  rw [List.getElem?_eq_getElem (by omega)]
  exact congrArg some hx

theorem matchAt_cap (p : List Node) (s : List Char) :
    matchAt (Node.capDotPlus :: p) s = capLoop (matchAt p) s (dotRun s) := rfl

/-- The final group followed by `$` takes a non-empty text without line feed whole. -/
theorem tail_capture (cluster : Str) (hne : cluster ≠ []) (hnl : ∀ c ∈ cluster, c ≠ '\n') :
    matchAt [Node.capDotPlus, Node.endText] cluster = some (cluster.length, [cluster]) := by
  rw [matchAt_cap, dotRun_eq_length cluster hnl]
  have hlen : 1 ≤ cluster.length := by
    cases cluster with
    | nil => exact absurd rfl hne
    | cons c cs => simp
  have hk : matchAt [Node.endText] (cluster.drop cluster.length) = some (0, []) := by
    simp [matchAt]
  have h := capLoop_first (matchAt [Node.endText]) cluster cluster.length (0, []) hlen hk
    cluster.length (le_refl _) (fun m h1 h2 => by omega)
  simpa using h

/-- The last part of the pattern matches the keyword text followed by the cluster name. -/
theorem provider_tail (kwT cluster : Str) (hkw : CaseVariant providerText kwT)
    (hne : cluster ≠ []) (hnl : ∀ c ∈ cluster, c ≠ '\n') :
    matchAt (foldNodes providerText ++ [Node.capDotPlus, Node.endText]) (kwT ++ cluster)
      = some (cluster.length + (foldNodes providerText).length, [cluster]) := by
  rw [matchAt_accept_append _ _ _ _ (foldNodes_accept _ _ hkw), tail_capture cluster hne hnl]
  rfl

/-- The last part of the pattern matches no proper suffix of the keyword text followed by a
cluster name without `/`. -/
theorem provider_tail_fail (p : List Node) (kwT cluster : Str) (hlen : kwT.length = 54)
    (hsl : ∀ c ∈ cluster, c ≠ '/') (j : Nat) (hj : 1 ≤ j) :
    matchAt (foldNodes providerText ++ p) ((kwT ++ cluster).drop j) = none := by
  cases h : matchAt (foldNodes providerText ++ p) ((kwT ++ cluster).drop j) with
  | none => rfl
  | some r =>
    exfalso
    have h53 := provider_slash p _ r h
    rw [List.getElem?_drop, List.getElem?_append_right (by omega)] at h53
    exact hsl '/' (List.getElem?_mem h53) rfl

/-- The second group followed by the last part, on a text `X`, the keyword text and the
cluster name: the group takes `X`. -/
theorem group_tail (X kwT cluster : Str) (hkw : CaseVariant providerText kwT)
    (hX : X ≠ []) (hne : cluster ≠ [])
    (hnl : ∀ c ∈ X ++ (kwT ++ cluster), c ≠ '\n') (hsl : ∀ c ∈ cluster, c ≠ '/') :
    ∃ n, matchAt (Node.capDotPlus :: (foldNodes providerText
        ++ [Node.capDotPlus, Node.endText])) (X ++ (kwT ++ cluster)) = some (n, [X, cluster]) := by
  have hlen : kwT.length = 54 := by
    have h1 := List.Forall₂.length_eq hkw
    rw [← h1]; decide
  have hXlen : 1 ≤ X.length := by
    cases X with
    | nil => exact absurd rfl hX
    | cons c cs => simp
  rw [matchAt_cap, dotRun_eq_length _ hnl]
  have hk : matchAt (foldNodes providerText ++ [Node.capDotPlus, Node.endText])
      ((X ++ (kwT ++ cluster)).drop X.length)
      = some (cluster.length + (foldNodes providerText).length, [cluster]) := by
    rw [List.drop_left]
    exact provider_tail kwT cluster hkw hne
      (fun c hc => hnl c (List.mem_append_right _ (List.mem_append_right _ hc)))
  have h := capLoop_first _ (X ++ (kwT ++ cluster)) X.length _ hXlen hk
    (X ++ (kwT ++ cluster)).length (by simp) (by
      intro m h1 _
      rw [List.drop_append_eq_append_drop, List.drop_eq_nil_of_le (by omega), List.nil_append]
      exact provider_tail_fail _ kwT cluster hlen hsl _ (by omega))
  rw [h, List.take_left]
  exact ⟨_, rfl⟩

/-- The second group followed by the last part, on any suffix of a text `W`, the keyword text
and the cluster name: every match ends with the cluster name as last capture. -/
theorem group_tail_suffix (W kwT cluster : Str) (hkw : CaseVariant providerText kwT)
    (hne : cluster ≠ [])
    (hnl : ∀ c ∈ W ++ (kwT ++ cluster), c ≠ '\n') (hsl : ∀ c ∈ cluster, c ≠ '/')
    (i : Nat) (r : Nat × List Str)
    (h : matchAt (Node.capDotPlus :: (foldNodes providerText
        ++ [Node.capDotPlus, Node.endText])) ((W ++ (kwT ++ cluster)).drop i) = some r) :
    ∃ g, r.2 = [g, cluster] := by
  have hlen : kwT.length = 54 := by
    have h1 := List.Forall₂.length_eq hkw
    rw [← h1]; decide
  by_cases hi : i < W.length
  · rw [List.drop_append_of_le_length (by omega)] at h
    have hX : W.drop i ≠ [] := by
      intro h0
      have := congrArg List.length h0
      simp at this
      omega
    obtain ⟨n, hn⟩ := group_tail (W.drop i) kwT cluster hkw hX hne (by
      intro c hc
      rcases List.mem_append.mp hc with h1 | h1
      · exact hnl c (List.mem_append_left _ (List.mem_of_mem_drop h1))
      · exact hnl c (List.mem_append_right _ h1)) hsl
    rw [hn] at h
    exact ⟨W.drop i, by rw [← Option.some.inj h]⟩
  · exfalso
    rw [List.drop_append_eq_append_drop, List.drop_eq_nil_of_le (by omega), List.nil_append,
      matchAt_cap] at h
    rw [capLoop_none] at h
    · exact Option.noConfusion h
    · intro m hm _
      rw [List.drop_drop]
      exact provider_tail_fail _ kwT cluster hlen hsl _ (by omega)

/-- The part of the pattern from `/resourcegroups/` on, on any suffix of a text `W`, the
keyword text and the cluster name: every match ends with the cluster name as last capture. -/
theorem resourcegroups_suffix (W kwT cluster : Str) (hkw : CaseVariant providerText kwT)
    (hne : cluster ≠ [])
    (hnl : ∀ c ∈ W ++ (kwT ++ cluster), c ≠ '\n') (hsl : ∀ c ∈ cluster, c ≠ '/')
    (i : Nat) (r : Nat × List Str)
    (h : matchAt (foldNodes "/resourcegroups/" ++ Node.capDotPlus :: (foldNodes providerText
        ++ [Node.capDotPlus, Node.endText])) ((W ++ (kwT ++ cluster)).drop i) = some r) :
    ∃ g, r.2 = [g, cluster] := by
  obtain ⟨text, s, r1, ht, _, hp, h2⟩ :=
    matchAt_single_inv _ (foldNodes "/resourcegroups/") (foldNodes_single _) _ r h
  have hs : s = (W ++ (kwT ++ cluster)).drop (i + text.length) := by
    rw [← List.drop_drop, ht, List.drop_left]
  rw [hs] at hp
  obtain ⟨g, hg⟩ := group_tail_suffix W kwT cluster hkw hne hnl hsl _ r1 hp
  exact ⟨g, h2.trans hg⟩

theorem capLoop_none_inv (k : List Char → Option (Nat × List Str)) (s : List Char) :
    ∀ n, capLoop k s n = none → ∀ m, 1 ≤ m → m ≤ n → k (s.drop m) = none := by
  intro n
  induction n with
  | zero => intro _ m h1 h2; omega
  | succ n ih =>
    intro h m h1 h2
    simp only [capLoop] at h
    cases hk : k (s.drop (n + 1)) with
    | some r1 => simp [hk] at h
    | none =>
      simp only [hk] at h
      by_cases hm : m = n + 1
      · subst hm; exact hk
      · exact ih h m h1 (by omega)

theorem caseVariant_no_newline (kw : String) (text : Str) (h : CaseVariant kw text)
    (hkw : ∀ k ∈ kw.toList, k.toLower ≠ '\n' ∧ k.toUpper ≠ '\n') :
    ∀ x ∈ text, x ≠ '\n' := by
  intro x hx
  obtain ⟨k, hk, hkx⟩ := forall₂_mem_right _ _ _ h x hx
  rcases hkx with h1 | h1
  · rw [h1]; exact (hkw k hk).1
  · rw [h1]; exact (hkw k hk).2

theorem search_of_matchAt (re : List Node) (t : List Char) (r : Nat × List Str)
    (hne : t ≠ []) (h : matchAt re t = some r) :
    FindStringSubmatch re t = t.take r.1 :: r.2 := by
  cases t with
  | nil => exact absurd rfl hne
  | cons c t => simp [FindStringSubmatch, search, h]

/-- C5 (amended): for a string made of the keyword segments in any upper/lower casing and of
non-empty `sub`, `rg`, `cluster` without line feed, where `cluster` contains no `/`,
`parseClusterName` succeeds and returns `cluster`. -/
theorem parseClusterName_trailing_segment (subT rgT kwT sub rg cluster : Str)
    (h1 : CaseVariant "/subscriptions/" subT)
    (h2 : CaseVariant "/resourcegroups/" rgT)
    (h3 : CaseVariant "/providers/Microsoft.ContainerService/managedClusters/" kwT)
    (hsub : sub ≠ []) (hrg : rg ≠ []) (hcl : cluster ≠ [])
    (hnl1 : ∀ c ∈ sub, c ≠ '\n') (hnl2 : ∀ c ∈ rg, c ≠ '\n')
    (hnl3 : ∀ c ∈ cluster, c ≠ '\n') (hsl : ∀ c ∈ cluster, c ≠ '/') :
    parseClusterName (subT ++ sub ++ rgT ++ rg ++ kwT ++ cluster) = .ok cluster := by
  have h3p : CaseVariant providerText kwT := h3
  have hnlrg : ∀ x ∈ rgT, x ≠ '\n' := caseVariant_no_newline _ _ h2 (by decide)
  have hnlkw : ∀ x ∈ kwT, x ≠ '\n' := caseVariant_no_newline _ _ h3p (by decide)
  have hsublen : 1 ≤ sub.length := by
    cases sub with
    | nil => exact absurd rfl hsub
    | cons c cs => simp
  have hnlT : ∀ c ∈ sub ++ (rgT ++ (rg ++ (kwT ++ cluster))), c ≠ '\n' := by
    intro c hc
    simp only [List.mem_append] at hc
    rcases hc with h | h | h | h | h
    · exact hnl1 c h
    · exact hnlrg c h
    · exact hnl2 c h
    · exact hnlkw c h
    · exact hnl3 c h
  have hnlW : ∀ c ∈ (sub ++ (rgT ++ rg)) ++ (kwT ++ cluster), c ≠ '\n' := by
    intro c hc
    exact hnlT c (by simpa [List.append_assoc] using hc)
  have hnlX : ∀ c ∈ rg ++ (kwT ++ cluster), c ≠ '\n' := by
    intro c hc
    exact hnlT c (List.mem_append_right _ (List.mem_append_right _ hc))
  -- the part of the pattern after `/subscriptions/`, on the text after that keyword
  have key : ∃ r g1 g2, matchAt (Node.capDotPlus :: (foldNodes "/resourcegroups/"
      ++ Node.capDotPlus :: (foldNodes providerText ++ [Node.capDotPlus, Node.endText])))
      (sub ++ (rgT ++ (rg ++ (kwT ++ cluster)))) = some r ∧ r.2 = [g1, g2, cluster] := by
    rw [matchAt_cap, dotRun_eq_length _ hnlT]
    cases hloop : capLoop (matchAt (foldNodes "/resourcegroups/"
        ++ Node.capDotPlus :: (foldNodes providerText ++ [Node.capDotPlus, Node.endText])))
        (sub ++ (rgT ++ (rg ++ (kwT ++ cluster))))
        (sub ++ (rgT ++ (rg ++ (kwT ++ cluster)))).length with
    | none =>
      exfalso
      have hno := capLoop_none_inv _ _ _ hloop sub.length hsublen (by simp)
      rw [List.drop_left, matchAt_accept_append _ _ _ _ (foldNodes_accept _ _ h2)] at hno
      obtain ⟨n, hn⟩ := group_tail rg kwT cluster h3p hrg hcl hnlX hsl
      rw [hn] at hno
      exact Option.noConfusion hno
    | some r =>
      obtain ⟨m, r1, _, _, hk, hr⟩ := capLoop_some_inv _ _ _ r hloop
      have hassoc : sub ++ (rgT ++ (rg ++ (kwT ++ cluster)))
          = (sub ++ (rgT ++ rg)) ++ (kwT ++ cluster) := by
        simp [List.append_assoc]
      rw [hassoc] at hk
      obtain ⟨g, hg⟩ := resourcegroups_suffix (sub ++ (rgT ++ rg)) kwT cluster h3p hcl hnlW
        hsl m r1 hk
      exact ⟨r, _, g, rfl, by rw [hr, hg]⟩
  obtain ⟨r, g1, g2, hr, hcaps⟩ := key
  have htext : subT ++ sub ++ rgT ++ rg ++ kwT ++ cluster
      = subT ++ (sub ++ (rgT ++ (rg ++ (kwT ++ cluster)))) := by
    simp [List.append_assoc]
  have hne : subT ++ (sub ++ (rgT ++ (rg ++ (kwT ++ cluster)))) ≠ [] := by
    intro h0
    have := congrArg List.length h0
    simp only [List.length_append, List.length_nil] at this
    omega
  have hfull := matchAt_accept_append (Node.capDotPlus :: (foldNodes "/resourcegroups/"
      ++ Node.capDotPlus :: (foldNodes providerText ++ [Node.capDotPlus, Node.endText])))
      (sub ++ (rgT ++ (rg ++ (kwT ++ cluster)))) _ _ (foldNodes_accept _ _ h1)
  rw [hr] at hfull
  unfold parseClusterName
  simp only [clusterName_pattern, htext]
  rw [search_of_matchAt _ _ _ hne hfull]
  simp [hcaps]

/-- Witness of `parseClusterName_trailing_segment`: keyword segments in mixed casing. -/
theorem parseClusterName_trailing_segment_witness :
    parseClusterName ("/SUBSCRIPTIONS/".toList ++ "S".toList ++ "/resourceGroups/".toList
      ++ "rg1".toList ++ "/providers/Microsoft.ContainerService/managedClusters/".toList
      ++ "c1".toList) = .ok "c1".toList :=
  parseClusterName_trailing_segment "/SUBSCRIPTIONS/".toList "/resourceGroups/".toList
    "/providers/Microsoft.ContainerService/managedClusters/".toList
    "S".toList "rg1".toList "c1".toList
    (by decide) (by decide) (by decide) (by decide) (by decide) (by decide)
    (by decide) (by decide) (by decide) (by decide)

/-- C5 (as stated, refuted): with a cluster segment that contains a line feed the function
fails, and with a cluster segment that itself contains the keyword text it returns only the
part after the last keyword. -/
theorem parseClusterName_segment_limits :
    parseClusterName ("/subscriptions/".toList ++ "s".toList ++ "/resourcegroups/".toList
      ++ "r".toList ++ "/providers/Microsoft.ContainerService/managedClusters/".toList
      ++ "a\nb".toList) = .error (.errorString "invalid cluster resourceID".toList) ∧
    parseClusterName ("/subscriptions/".toList ++ "s".toList ++ "/resourcegroups/".toList
      ++ "r".toList ++ "/providers/Microsoft.ContainerService/managedClusters/".toList
      ++ "a/providers/Microsoft.ContainerService/managedClusters/b".toList)
      = .ok "b".toList := by
  decide

end Kubetest2Aks
